import Mathlib

/-!
WiFiAppStore Navigator: decode / parse / cache / navigate.

A shallow embedding of `app.js`.  JavaScript strings are Lean strings handled
through their character lists.  JavaScript numbers are embedded at their
integer values (`JSNum.int`) together with `NaN` (`JSNum.nan`); the embedding
is exact for integers in the safe range (below `2^53` in absolute value),
which is where double arithmetic on integers is exact.
-/

namespace AppStore

/-! ## JavaScript values and built-ins used by the program -/

/-- The values that reach `decodeDate` and the parsers: `undefined`, `null`,
a string, or an integer-valued number. -/
inductive JSVal where
  | undefined
  | null
  | str (s : String)
  | num (n : Int)
  deriving DecidableEq, Repr

/-- A number produced by `parseInt` and the arithmetic after it: an integer or `NaN`. -/
inductive JSNum where
  | nan
  | int (n : Int)
  deriving DecidableEq, Repr

/-- WhiteSpace and LineTerminator code points of ECMAScript (the set used by
`String.prototype.trim`, `Number(string)` and `parseInt`). -/
def isJSWhitespace (c : Char) : Bool :=
  [0x09, 0x0A, 0x0B, 0x0C, 0x0D, 0x20, 0xA0, 0x1680, 0x2028, 0x2029,
    0x202F, 0x205F, 0x3000, 0xFEFF].contains c.toNat
  || (0x2000 ≤ c.toNat && c.toNat ≤ 0x200A)

/-- Remove leading white space. -/
def trimStartChars (cs : List Char) : List Char :=
  cs.dropWhile isJSWhitespace

/-- Remove trailing white space. -/
def trimEndChars (cs : List Char) : List Char :=
  (cs.reverse.dropWhile isJSWhitespace).reverse

/-- `String.prototype.trim` on character lists. -/
def trimChars (cs : List Char) : List Char :=
  trimEndChars (trimStartChars cs)

/-- `s.trim()`. -/
def jsTrim (s : String) : String :=
  ⟨trimChars s.data⟩

/-- ToBoolean: `!x` is the negation of this. -/
def truthy : JSVal → Bool
  | .undefined => false
  | .null => false
  | .str s => s.data ≠ []
  | .num n => n ≠ 0

/-- A non-empty run of decimal digits. -/
def isDecimalDigits (cs : List Char) : Bool :=
  !cs.isEmpty && cs.all Char.isDigit

/-- ExponentPart_opt of the StringNumericLiteral grammar: nothing, or `e`/`E`
followed by an optionally signed non-empty run of digits. -/
def isExponentOpt : List Char → Bool
  | [] => true
  | c :: rest =>
    (c == 'e' || c == 'E') &&
      (match rest with
       | '+' :: ds => isDecimalDigits ds
       | '-' :: ds => isDecimalDigits ds
       | ds => isDecimalDigits ds)

/-- StrUnsignedDecimalLiteral: `Infinity`, `digits . digits? exp?`,
`. digits exp?` or `digits exp?`. -/
def isStrUnsignedDecimalLiteral (cs : List Char) : Bool :=
  if cs = "Infinity".data then true
  else
    let intPart := cs.takeWhile Char.isDigit
    let afterInt := cs.dropWhile Char.isDigit
    match afterInt with
    | '.' :: t =>
      let frac := t.takeWhile Char.isDigit
      (!intPart.isEmpty || !frac.isEmpty) && isExponentOpt (t.dropWhile Char.isDigit)
    | _ => !intPart.isEmpty && isExponentOpt afterInt

/-- Hexadecimal digit. -/
def isHexDigit (c : Char) : Bool :=
  c.isDigit || ('a' ≤ c && c ≤ 'f') || ('A' ≤ c && c ≤ 'F')

/-- NonDecimalIntegerLiteral: `0x`, `0o` or `0b` (either case) followed by a
non-empty run of digits of that base; no sign is allowed. -/
def isNonDecimalIntegerLiteral : List Char → Bool
  | '0' :: p :: ds =>
    if p == 'x' || p == 'X' then !ds.isEmpty && ds.all isHexDigit
    else if p == 'o' || p == 'O' then !ds.isEmpty && ds.all (fun c => '0' ≤ c && c ≤ '7')
    else if p == 'b' || p == 'B' then !ds.isEmpty && ds.all (fun c => c == '0' || c == '1')
    else false
  | _ => false

/-- StrNumericLiteral: an optionally signed decimal literal or an unsigned
non-decimal integer literal. -/
def isStrNumericLiteral (cs : List Char) : Bool :=
  (match cs with
   | '+' :: t => isStrUnsignedDecimalLiteral t
   | '-' :: t => isStrUnsignedDecimalLiteral t
   | _ => isStrUnsignedDecimalLiteral cs)
  || isNonDecimalIntegerLiteral cs

/-- Whether `Number(s)` is a number (not `NaN`): after trimming, the string is
empty or a StrNumericLiteral. -/
def isNumericString (s : String) : Bool :=
  let t := trimChars s.data
  t.isEmpty || isStrNumericLiteral t

/-- The global `isNaN(x)`: `Number(x)` is `NaN`. -/
def jsIsNaN : JSVal → Bool
  | .undefined => true
  | .null => false
  | .str s => !isNumericString s
  | .num _ => false

/-- Value of a run of decimal digits, most significant first. -/
def digitsValue (cs : List Char) : Nat :=
  cs.foldl (fun acc c => 10 * acc + (c.toNat - '0'.toNat)) 0

/-- `parseInt(s, 10)` on the characters of a string: skip leading white space,
read an optional sign, then the longest run of decimal digits; `NaN` when that
run is empty. -/
def parseIntChars (cs : List Char) : JSNum :=
  let s := trimStartChars cs
  let (neg, body) : Bool × List Char :=
    match s with
    | '-' :: t => (true, t)
    | '+' :: t => (false, t)
    | _ => (false, s)
  let z := body.takeWhile Char.isDigit
  if z.isEmpty then .nan
  else if neg then .int (-(digitsValue z : Int)) else .int (digitsValue z)

/-- `parseInt(x, 10)`.  A string is read by `parseIntChars`; `undefined` and
`null` are first converted to the strings "undefined" and "null", which have
no digits; an integer is converted to its decimal numeral and read back. -/
def parseInt10 : JSVal → JSNum
  | .undefined => parseIntChars "undefined".data
  | .null => parseIntChars "null".data
  | .str s => parseIntChars s.data
  | .num n => .int n

namespace JSNum

/-- `a <= b`; false when an operand is `NaN`. -/
def le : JSNum → JSNum → Bool
  | .int a, .int b => a ≤ b
  | _, _ => false

/-- `a < b`; false when an operand is `NaN`. -/
def lt : JSNum → JSNum → Bool
  | .int a, .int b => a < b
  | _, _ => false

/-- `a >= b`; false when an operand is `NaN`. -/
def ge : JSNum → JSNum → Bool
  | .int a, .int b => b ≤ a
  | _, _ => false

/-- `a > b`; false when an operand is `NaN`. -/
def gt : JSNum → JSNum → Bool
  | .int a, .int b => b < a
  | _, _ => false

/-- `Math.floor(a / b)` for a non-zero integer divisor. -/
def floorDiv : JSNum → JSNum → JSNum
  | .int a, .int b => if b = 0 then .nan else .int (Int.fdiv a b)
  | _, _ => .nan

/-- `a % b`: the remainder takes the sign of the dividend. -/
def rem : JSNum → JSNum → JSNum
  | .int a, .int b => if b = 0 then .nan else .int (Int.tmod a b)
  | _, _ => .nan

/-- `a + b`. -/
def add : JSNum → JSNum → JSNum
  | .int a, .int b => .int (a + b)
  | _, _ => .nan

/-- `a - b`. -/
def sub : JSNum → JSNum → JSNum
  | .int a, .int b => .int (a - b)
  | _, _ => .nan

/-- `a * b`. -/
def mul : JSNum → JSNum → JSNum
  | .int a, .int b => .int (a * b)
  | _, _ => .nan

/-- `String(n)`. -/
def toStr : JSNum → String
  | .nan => "NaN"
  | .int n => toString n

end JSNum

/-- `s.padStart(2, '0')`. -/
def padStart2 (s : String) : String :=
  ⟨List.replicate (2 - s.data.length) '0' ++ s.data⟩

/-- The local helper `pad = n => String(n).padStart(2, '0')`. -/
def pad (n : JSNum) : String :=
  padStart2 n.toStr

/-! ## decodeDate -/

/-- `decodeDate(encodedDate)`, lines 20-43. -/
def decodeDate (encodedDate : JSVal) : String :=
  if !truthy encodedDate || jsIsNaN encodedDate then "invalid date"
  else
    let num := parseInt10 encodedDate
    if num.le (.int 0) then "invalid date"
    else
      let year := num.floorDiv (.int 500)
      let monthDay := num.rem (.int 500)
      if monthDay.le (.int 0) || monthDay.ge (.int 500) then "invalid date"
      else
        let month := (monthDay.floorDiv (.int 32)).sub (.int 1)
        let day := monthDay.rem (.int 32)
        if month.lt (.int 0) || month.gt (.int 11)
            || day.le (.int 0) || day.gt (.int 31) then
          "invalid date"
        else
          pad day ++ "." ++ pad (month.add (.int 1)) ++ "." ++ year.toStr

/-! ## Record parsers -/

/-- Split a character list at every occurrence of `sep`; the result is never empty. -/
def splitChars (sep : Char) : List Char → List (List Char)
  | [] => [[]]
  | c :: cs =>
    if c = sep then [] :: splitChars sep cs
    else
      match splitChars sep cs with
      | [] => [[c]]
      | f :: fs => (c :: f) :: fs

/-- `dataString.split(';')`. -/
def jsSplit (s : String) : List String :=
  (splitChars ';' s.data).map String.mk

/-- `parts[i]?.trim()`: the trimmed field, or `undefined` when the index is out of range. -/
def trimmedAt (parts : List String) (i : Nat) : JSVal :=
  match parts.get? i with
  | some s => .str (jsTrim s)
  | none => .undefined

/-- `parts[i]`: the field, or `undefined` when the index is out of range. -/
def fieldAt (parts : List String) (i : Nat) : JSVal :=
  match parts.get? i with
  | some s => .str s
  | none => .undefined

/-- A menu item.  `access` and `likes` are `none` when the object has no such
property (depths other than '3'); at depth '3' they hold the value stored,
which is `undefined` when the field is missing from the payload. -/
structure MenuItem where
  name : String
  date : String
  access : Option JSVal
  likes : Option JSVal
  deriving DecidableEq, Repr

/-- The record returned by `parseGameData`. -/
structure GameData where
  filename : String
  author : String
  license : String
  description : String
  downloadPath : String
  accessLevel : String
  likes : String
  downloads : String
  deriving DecidableEq, Repr

/-- The constant `BASE_DOWNLOAD_URL`. -/
def BASE_DOWNLOAD_URL : String := "https://drive.google.com/file/d/"

/-- The constant `CACHE_EXPIRY_MS`. -/
def CACHE_EXPIRY_MS : Int := 24 * 60 * 60 * 1000

/-- The loop `for (let i = start; i < bound && i < len; i += stride) body(i)`,
collecting what each iteration pushes.  `fuel` bounds the number of iterations;
with a positive stride, `len - start` iterations are always enough. -/
def forLoop (bound : JSNum) (len : Nat) (stride : Nat) (body : Nat → List MenuItem) :
    Nat → Nat → List MenuItem
  | 0, _ => []
  | fuel + 1, i =>
    if (JSNum.int i).lt bound && decide (i < len) then
      body i ++ forLoop bound len stride body fuel (i + stride)
    else []

/-- Body of the loop at depth '3' (lines 128-140). -/
def menuBody3 (parts : List String) (i : Nat) : List MenuItem :=
  let name := trimmedAt parts i
  let dateStr := trimmedAt parts (i + 1)
  let access := trimmedAt parts (i + 2)
  let likes := trimmedAt parts (i + 3)
  match name with
  | .str n =>
    if truthy name then
      [{ name := n, date := decodeDate dateStr, access := some access, likes := some likes }]
    else []
  | _ => []

/-- Body of the loop at the other depths (lines 145-153). -/
def menuBody2 (parts : List String) (i : Nat) : List MenuItem :=
  let name := trimmedAt parts i
  let dateStr := trimmedAt parts (i + 1)
  match name with
  | .str n =>
    if truthy name then
      [{ name := n, date := decodeDate dateStr, access := none, likes := none }]
    else []
  | _ => []

/-- `parseMenuData(dataString, cmdLevel)`, lines 118-158. -/
def parseMenuData (dataString : String) (cmdLevel : String) : List MenuItem :=
  let parts := jsSplit dataString
  if parts.length < 3 then []
  else
    let itemCount := parseInt10 (fieldAt parts 1)
    if cmdLevel = "3" then
      forLoop ((JSNum.int 2).add (itemCount.mul (.int 4))) parts.length 4 (menuBody3 parts)
        parts.length 2
    else
      forLoop ((JSNum.int 2).add (itemCount.mul (.int 2))) parts.length 2 (menuBody2 parts)
        parts.length 2

/-- `parseGameData(dataString)`, lines 161-177; `none` is `null`. -/
def parseGameData (dataString : String) : Option GameData :=
  let parts := jsSplit dataString
  if parts.length < 9 then none
  else
    match parts with
    | _ :: p1 :: p2 :: p3 :: p4 :: p5 :: p6 :: p7 :: p8 :: _ =>
      let fileId := jsTrim p5
      some { filename := p1, author := p2, license := p3, description := p4,
             downloadPath := BASE_DOWNLOAD_URL ++ fileId,
             accessLevel := p6, likes := p7, downloads := p8 }
    | _ => none

/-! ## Cache store and fetcher -/

/-- The value stored by `cacheData`: `{ data, timestamp }`. -/
structure CacheEntry where
  data : String
  timestamp : Int
  deriving DecidableEq, Repr

/-- The part of `localStorage` used by the program: storage key to the entry
serialised there.  Only `cacheData` writes it, so every value is the JSON text
of a `{ data, timestamp }` object and `JSON.parse` gives that object back. -/
abbrev Store := String → Option CacheEntry

/-- The storage key of a cache key. -/
def storageKey (key : String) : String := "menuCache_" ++ key

/-- `cacheData(key, data)` at clock reading `now`. -/
def cacheData (store : Store) (now : Int) (key data : String) : Store :=
  fun k => if k = storageKey key then some { data := data, timestamp := now } else store k

/-- `getCachedData(key)`; `none` is `null`. -/
def getCachedData (store : Store) (key : String) : Option String :=
  match store (storageKey key) with
  | some cached => some cached.data
  | none => none

/-- `shouldInvalidateCache(key)` at clock reading `now`. -/
def shouldInvalidateCache (store : Store) (now : Int) (key : String) : Bool :=
  match store (storageKey key) with
  | none => true
  | some cached => decide (now - cached.timestamp > CACHE_EXPIRY_MS)

/-- Request parameters `{ cmd, dat }`; `dat` may be absent. -/
structure Params where
  cmd : String
  dat : Option String
  deriving DecidableEq, Repr

/-- What the remote endpoint does with a request: a body with a success
status, or a failure (rejected fetch or a status that is not ok). -/
inductive NetResult where
  | ok (body : String)
  | failed
  deriving DecidableEq, Repr

/-- The surroundings of one `fetchMenuData` call: the clock read by
`shouldInvalidateCache`, the clock read by `cacheData` after the response
arrived, and the behaviour of the endpoint. -/
structure Env where
  now : Int
  nowAtStore : Int
  net : Params → NetResult

/-- Result of one `fetchMenuData` call: the string it resolves to, the store
afterwards and the network requests it made. -/
structure FetchOutcome where
  data : String
  store : Store
  requests : List Params

/-- The cache key of line 47. -/
def cacheKeyOf (params : Params) : String :=
  params.cmd ++ "_" ++
    (match params.dat with
     | some d => if d.data ≠ [] then d else "0"
     | none => "0")

/-- The default payload of line 70. -/
def defaultPayload (params : Params) : String :=
  if params.cmd = "4" then "1;2;3;4;5;6;7;8;9" else "0;0;"

/-- `fetchMenuData(params)`, lines 46-72. -/
def fetchMenuData (params : Params) (store : Store) (env : Env) : FetchOutcome :=
  let cacheKey := cacheKeyOf params
  let cachedData := getCachedData store cacheKey
  let live : FetchOutcome :=
    match env.net params with
    | .ok data =>
      { data := data, store := cacheData store env.nowAtStore cacheKey data,
        requests := [params] }
    | .failed =>
      { data :=
          (match cachedData with
           | some d => if d.data ≠ [] then d else defaultPayload params
           | none => defaultPayload params),
        store := store, requests := [params] }
  match cachedData with
  | some d =>
    if d.data ≠ [] ∧ shouldInvalidateCache store env.now cacheKey = false then
      { data := d, store := store, requests := [] }
    else live
  | none => live

/-! ## Navigation -/

/-- What the page shows after a render. -/
inductive Display where
  | blank
  | menu (items : List MenuItem) (currentParams : Params)
  | details (gameData : Option GameData)
  deriving DecidableEq, Repr

/-- Program state: the history stack (top last), the cache, the screen, the
visibility of the back control and the log of network requests made. -/
structure AppState where
  menuHistory : List Params
  store : Store
  display : Display
  backVisible : Bool
  requests : List Params

/-- `loadAndShowMenu(params, isBackNavigation)`, lines 97-115, run to completion. -/
def loadAndShowMenu (params : Params) (isBackNavigation : Bool) (st : AppState) (env : Env) :
    AppState :=
  let out := fetchMenuData params st.store env
  let display :=
    if params.cmd = "4" then Display.details (parseGameData out.data)
    else Display.menu (parseMenuData out.data params.cmd) params
  let history := if isBackNavigation then st.menuHistory else st.menuHistory ++ [params]
  { menuHistory := history, store := out.store, display := display,
    backVisible := decide (history.length > 1),
    requests := st.requests ++ out.requests }

/-- `goBack()`, lines 245-251, run to completion.  After the pop the history
is non-empty because it had at least two frames. -/
def goBack (st : AppState) (env : Env) : AppState :=
  if st.menuHistory.length < 2 then st
  else
    let popped := st.menuHistory.dropLast
    match popped.getLast? with
    | some prevParams => loadAndShowMenu prevParams true { st with menuHistory := popped } env
    | none => { st with menuHistory := popped }

/-- The state in which the script starts: empty history, nothing rendered and
no request made.  The cache is what `localStorage` holds and the visibility of
the back control is what the page markup sets. -/
def startState (store : Store) (backVisible : Bool) : AppState :=
  { menuHistory := [], store := store, display := .blank, backVisible := backVisible,
    requests := [] }

/-- `init()`, lines 254-263: the first load, run to completion. -/
def init (store : Store) (backVisible : Bool) (env : Env) : AppState :=
  loadAndShowMenu { cmd := "1", dat := some "0" } false (startState store backVisible) env

/-- The click handler of the refresh button, lines 255-258, run to completion. -/
def refresh (st : AppState) (env : Env) : AppState :=
  loadAndShowMenu { cmd := "1", dat := some "0" } false { st with menuHistory := [] } env

/-- The click handler that `renderMenu(menuItems, currentParams)` attaches to
the row of `item`, lines 208-211, run to completion. -/
def rowClick (currentParams : Params) (item : MenuItem) (st : AppState) (env : Env) :
    AppState :=
  let nextLevel := ((parseInt10 (.str currentParams.cmd)).add (.int 1)).toStr
  loadAndShowMenu { cmd := nextLevel, dat := some item.name } false st env

/-- What the user can do: click the row number `k` of the menu on screen,
click the back control, click the refresh control. -/
inductive Action where
  | selectRow (k : Nat)
  | back
  | refresh
  deriving DecidableEq, Repr

/-- One user action run to completion.  Rows exist only while a menu is on
screen, one per item of that menu; a click where there is no row does nothing. -/
def step (st : AppState) (a : Action) (env : Env) : AppState :=
  match a with
  | .selectRow k =>
    match st.display with
    | .menu items currentParams =>
      match items.get? k with
      | some item => rowClick currentParams item st env
      | none => st
    | _ => st
  | .back => goBack st env
  | .refresh => refresh st env

/-- A sequence of user actions, each with the surroundings of its fetch, each
run to completion before the next starts. -/
def runActions (st : AppState) : List (Action × Env) → AppState
  | [] => st
  | (a, env) :: rest => runActions (step st a env) rest

/-- The screen `loadAndShowMenu` renders for a request from a payload
(lines 104-108). -/
def renderScreen (params : Params) (data : String) : Display :=
  if params.cmd = "4" then Display.details (parseGameData data)
  else Display.menu (parseMenuData data params.cmd) params

/-! ## Sample stores, environments and states -/

/-- The depth-1 request of `init`. -/
def rootParams : Params := { cmd := "1", dat := some "0" }

/-- A depth-2 request. -/
def gamesParams : Params := { cmd := "2", dat := some "Games" }

/-- A detail request. -/
def detailParams : Params := { cmd := "4", dat := some "Pong" }

/-- The empty store. -/
def emptyStore : Store := fun _ => none

/-- A store whose only entry, under the key of `rootParams`, holds the empty
payload written at time 1000. -/
def emptyPayloadStore : Store :=
  fun k => if k = "menuCache_1_0" then some { data := "", timestamp := 1000 } else none

/-- A store whose only entry, under the key of `rootParams`, holds a menu
payload written at time 1000. -/
def menuStore : Store :=
  fun k => if k = "menuCache_1_0" then some { data := "0;1;Games;16912", timestamp := 1000 }
    else none

/-- An endpoint that answers every request with the same one-item menu, read at time 1000. -/
def onlineEnv : Env :=
  { now := 1000, nowAtStore := 1000, net := fun _ => .ok "0;1;Tools;16912" }

/-- An endpoint that fails every request, read at time 1000. -/
def offlineEnv : Env :=
  { now := 1000, nowAtStore := 1000, net := fun _ => .failed }

/-- A state with two frames on the history. -/
def twoFrameState : AppState :=
  { menuHistory := [rootParams, gamesParams], store := emptyStore,
    display := .menu [] gamesParams, backVisible := true, requests := [] }

/-- A state with the single depth-1 frame on the history. -/
def oneFrameState : AppState :=
  { menuHistory := [rootParams], store := emptyStore,
    display := .menu [] rootParams, backVisible := false, requests := [] }

/-! ## Specification-side vocabulary for payloads -/

/-- Character lists joined with ';' between consecutive ones. -/
def joinChars : List (List Char) → List Char
  | [] => []
  | [f] => f
  | f :: g :: rest => f ++ ';' :: joinChars (g :: rest)

/-- The payload whose fields are the given strings: `fields.join(';')`. -/
def joinFields (fields : List String) : String :=
  ⟨joinChars (fields.map String.data)⟩

/-- One tuple of a menu payload.  `access` and `likes` are part of the payload
at depth '3' only. -/
structure Tuple where
  name : String
  date : String
  access : String
  likes : String
  deriving DecidableEq, Repr

/-- The fields a tuple contributes to the payload at a depth: stride 4 at
depth '3', stride 2 otherwise. -/
def tupleFields (depth : String) (t : Tuple) : List String :=
  if depth = "3" then [t.name, t.date, t.access, t.likes] else [t.name, t.date]

/-- The payload `status;count;t_1;...;t_k`. -/
def menuPayload (depth status count : String) (tuples : List Tuple) : String :=
  joinFields (status :: count :: tuples.flatMap (tupleFields depth))

/-- The item a complete tuple stands for: none when the trimmed name is empty;
otherwise the trimmed name, the decoded trimmed date and, at depth '3', the
trimmed access and likes. -/
def tupleItem (depth : String) (t : Tuple) : Option MenuItem :=
  if (jsTrim t.name).data = [] then none
  else if depth = "3" then
    some { name := jsTrim t.name, date := decodeDate (.str (jsTrim t.date)),
           access := some (.str (jsTrim t.access)), likes := some (.str (jsTrim t.likes)) }
  else
    some { name := jsTrim t.name, date := decodeDate (.str (jsTrim t.date)),
           access := none, likes := none }

/-- The stride of the parsing loop at a depth: 4 at depth '3', 2 otherwise. -/
def menuStride (depth : String) : Nat :=
  if depth = "3" then 4 else 2

/-- The item built from the group of fields that starts at index `i`, for a
group whose trimmed name is `name`: fields of the group that lie beyond the end
of the payload are read as `undefined`. -/
def groupItem (depth : String) (parts : List String) (i : Nat) (name : String) : MenuItem :=
  if depth = "3" then
    { name := name, date := decodeDate (trimmedAt parts (i + 1)),
      access := some (trimmedAt parts (i + 2)), likes := some (trimmedAt parts (i + 3)) }
  else
    { name := name, date := decodeDate (trimmedAt parts (i + 1)), access := none, likes := none }

/-! ## Specification-side vocabulary for navigation -/

/-- A well-formed history: at most four frames, the depth-1 frame
`{ cmd: '1', dat: '0' }` at the bottom, and the frame at position `i`
(counting from 0) at depth `String(i + 1)`. -/
def HistoryOk (h : List Params) : Prop :=
  h.length ≤ 4 ∧
  h.head? = some { cmd := "1", dat := some "0" } ∧
  ∀ (i : Nat) (p : Params), h.get? i = some p → p.cmd = toString (i + 1)

/-- The navigation invariant: the history is well formed and the screen is the
render, for the top frame, of some payload. -/
def NavInv (st : AppState) : Prop :=
  HistoryOk st.menuHistory ∧
  ∃ (top : Params) (data : String),
    st.menuHistory.getLast? = some top ∧ st.display = renderScreen top data

/-- The states reachable from `init` by a sequence of row selections, back
and refresh actions, each run to completion before the next starts. -/
def Reachable (st : AppState) : Prop :=
  ∃ (store : Store) (backVisible : Bool) (env : Env) (acts : List (Action × Env)),
    st = runActions (init store backVisible env) acts

/-! ## Specification-side vocabulary for dates -/

/-- A number below 100 written with exactly two decimal digits. -/
def twoDigits (n : Nat) : String :=
  ⟨[Nat.digitChar (n / 10), Nat.digitChar (n % 10)]⟩

/-- The display form `DD.MM.YYYY`: two-digit day, two-digit month and the year
as an unpadded decimal numeral. -/
def dateString (day month year : Nat) : String :=
  twoDigits day ++ "." ++ twoDigits month ++ "." ++ toString year

/-- A well-formed display date: `DD.MM.YYYY` with day in 01..31 and month in 01..12. -/
def IsDisplayDate (s : String) : Prop :=
  ∃ day month year : Nat,
    1 ≤ day ∧ day ≤ 31 ∧ 1 ≤ month ∧ month ≤ 12 ∧ s = dateString day month year

/-! ## Lemmas on decodeDate -/

/-- C10. Missing input (`undefined`, `null`, the empty string), a string that
does not denote a number, and any input that `parseInt` reads as an integer
at most 0 all decode to exactly "invalid date". -/
theorem decodeDate_invalid_inputs (v : JSVal)
    (h : v = .undefined ∨ v = .null ∨ v = .str "" ∨
      (∃ s, v = .str s ∧ isNumericString s = false) ∨
      (∃ k : Int, k ≤ 0 ∧ parseInt10 v = .int k)) :
    decodeDate v = "invalid date" := by
  rcases h with h | h | h | ⟨s, h, hs⟩ | ⟨k, hk, hp⟩
  · subst h; rfl
  · subst h; rfl
  · subst h; rfl
  · subst h
    simp [decodeDate, jsIsNaN, hs]
  · unfold decodeDate
    by_cases hg : (!truthy v || jsIsNaN v) = true
    · rw [if_pos hg]
    · rw [if_neg hg]
      have : (parseInt10 v).le (.int 0) = true := by
        rw [hp]; simp [JSNum.le, hk]
      simp only [this, if_true]

/-- Witness for C10: the inputs 0, -5, "abc", "-5", `undefined`, `null` and "". -/
theorem decodeDate_invalid_inputs_witness :
    decodeDate (.num 0) = "invalid date" ∧ decodeDate (.num (-5)) = "invalid date" ∧
    decodeDate (.str "abc") = "invalid date" ∧ decodeDate (.str "-5") = "invalid date" ∧
    decodeDate .undefined = "invalid date" ∧ decodeDate .null = "invalid date" ∧
    decodeDate (.str "") = "invalid date" :=
  ⟨decodeDate_invalid_inputs (.num 0) (Or.inr (Or.inr (Or.inr (Or.inr ⟨0, by decide, rfl⟩)))),
   decodeDate_invalid_inputs (.num (-5)) (Or.inr (Or.inr (Or.inr (Or.inr ⟨-5, by decide, rfl⟩)))),
   decodeDate_invalid_inputs (.str "abc") (Or.inr (Or.inr (Or.inr (Or.inl ⟨"abc", rfl, by decide⟩)))),
   decodeDate_invalid_inputs (.str "-5") (Or.inr (Or.inr (Or.inr (Or.inr ⟨-5, by decide, by decide⟩)))),
   decodeDate_invalid_inputs .undefined (Or.inl rfl),
   decodeDate_invalid_inputs .null (Or.inr (Or.inl rfl)),
   decodeDate_invalid_inputs (.str "") (Or.inr (Or.inr (Or.inl rfl)))⟩

theorem dateString_head (day month year : Nat) :
    (dateString day month year).data.head? = some (Nat.digitChar (day / 10)) := by
  simp [dateString, twoDigits]

theorem not_isDisplayDate_NaN : ¬ IsDisplayDate "NaN.NaN.NaN" := by
  rintro ⟨d, m, y, h1, h2, -, -, h⟩
  have hh := dateString_head d m y
  rw [← h] at hh
  have : d / 10 ≤ 3 := by omega
  interval_cases hd : d / 10 <;> revert hh <;> decide

/-- C9 (code defect). The string ".5" denotes a number, so it passes the
`isNaN` guard, but `parseInt` finds no digits in it; every later comparison
with `NaN` is false and the decoder returns "NaN.NaN.NaN", which is neither
"invalid date" nor a display date.  The same happens for " " and "Infinity",
and the parser passes such a field on: the payload "0;1;A;.5" yields an item
dated "NaN.NaN.NaN".  The strings "1e3" and "0x10" do give "invalid date". -/
theorem decodeDate_nan_leak :
    decodeDate (.str ".5") = "NaN.NaN.NaN" ∧
    decodeDate (.str " ") = "NaN.NaN.NaN" ∧
    decodeDate (.str "Infinity") = "NaN.NaN.NaN" ∧
    decodeDate (.str "1e3") = "invalid date" ∧
    decodeDate (.str "0x10") = "invalid date" ∧
    "NaN.NaN.NaN" ≠ "invalid date" ∧
    ¬ IsDisplayDate "NaN.NaN.NaN" ∧
    parseMenuData "0;1;A;.5" "1" = [⟨"A", "NaN.NaN.NaN", none, none⟩] :=
  ⟨by decide, by decide, by decide, by decide, by decide, by decide,
   not_isDisplayDate_NaN, by decide⟩

/-! ## Splitting and joining -/

theorem splitChars_of_not_mem (sep : Char) (f : List Char) (h : sep ∉ f) :
    splitChars sep f = [f] := by
  induction f with
  | nil => rfl
  | cons c cs ih =>
    have hc : c ≠ sep := fun e => h (e ▸ List.mem_cons_self _ _)
    have hcs : sep ∉ cs := fun m => h (List.mem_cons_of_mem _ m)
    simp [splitChars, hc, ih hcs]

theorem splitChars_append_sep (sep : Char) (f r : List Char) (h : sep ∉ f) :
    splitChars sep (f ++ sep :: r) = f :: splitChars sep r := by
  induction f with
  | nil => simp [splitChars]
  | cons c cs ih =>
    have hc : c ≠ sep := fun e => h (e ▸ List.mem_cons_self _ _)
    have hcs : sep ∉ cs := fun m => h (List.mem_cons_of_mem _ m)
    simp [splitChars, hc, ih hcs]

theorem splitChars_joinChars (fs : List (List Char)) (hne : fs ≠ [])
    (h : ∀ f ∈ fs, ';' ∉ f) : splitChars ';' (joinChars fs) = fs := by
  induction fs with
  | nil => exact absurd rfl hne
  | cons f rest ih =>
    cases rest with
    | nil => exact splitChars_of_not_mem _ _ (h f (List.mem_cons_self _ _))
    | cons g rest =>
      have hf := h f (List.mem_cons_self _ _)
      have hr : ∀ x ∈ g :: rest, ';' ∉ x := fun x hx => h x (List.mem_cons_of_mem _ hx)
      show splitChars ';' (f ++ ';' :: joinChars (g :: rest)) = f :: g :: rest
      rw [splitChars_append_sep _ _ _ hf, ih (by simp) hr]

/-- Splitting a payload built from separator-free fields gives the fields back. -/
theorem jsSplit_joinFields (fields : List String) (hne : fields ≠ [])
    (h : ∀ f ∈ fields, ';' ∉ f.data) : jsSplit (joinFields fields) = fields := by
  unfold jsSplit joinFields
  rw [splitChars_joinChars _ (by simpa using hne)]
  · rw [List.map_map]
    have hid : (String.mk ∘ String.data) = id := funext (fun _ => rfl)
    rw [hid, List.map_id]
  · intro f hf
    obtain ⟨g, hg, rfl⟩ := List.mem_map.mp hf
    exact h g hg

/-! ## The parsing loop on complete tuples -/

theorem trimmedAt_append (pre l : List String) (j : Nat) :
    trimmedAt (pre ++ l) (pre.length + j) = trimmedAt l j := by
  unfold trimmedAt
  rw [List.get?_eq_getElem?, List.get?_eq_getElem?,
    List.getElem?_append_right (Nat.le_add_right _ _), Nat.add_sub_cancel_left]

theorem trimmedAt_append_zero (pre l : List String) :
    trimmedAt (pre ++ l) pre.length = trimmedAt l 0 :=
  trimmedAt_append pre l 0

/-- With a positive stride, one more unit of fuel than the distance to the end
of the array changes nothing: the fuel never cuts the loop short. -/
theorem forLoop_fuel_succ (bound : JSNum) (len stride : Nat) (body : Nat → List MenuItem)
    (hpos : 0 < stride) :
    ∀ (fuel i : Nat), len ≤ i + fuel →
      forLoop bound len stride body (fuel + 1) i = forLoop bound len stride body fuel i := by
  intro fuel
  induction fuel with
  | zero =>
    intro i h
    have : ¬ i < len := by omega
    simp [forLoop, this]
  | succ fuel ih =>
    intro i h
    have hrec := ih (i + stride) (by omega)
    rw [forLoop, hrec]
    conv_rhs => rw [forLoop]

/-- Any amount of fuel beyond the distance to the end of the array gives the
same result. -/
theorem forLoop_fuel_enough (bound : JSNum) (len stride : Nat) (body : Nat → List MenuItem)
    (hpos : 0 < stride) (i extra : Nat) :
    forLoop bound len stride body (len - i + extra) i
      = forLoop bound len stride body (len - i) i := by
  induction extra with
  | zero => rfl
  | succ e ih =>
    rw [← ih, ← Nat.add_assoc]
    exact forLoop_fuel_succ bound len stride body hpos _ i (by omega)

/-- The loop started at the first field of a run of complete tuples, with the
bound placed right after the last of them, visits every tuple once, in order. -/
theorem forLoop_tuples (stride : Nat) (body : List String → Nat → List MenuItem)
    (fieldsOf : Tuple → List String) (g : Tuple → List MenuItem)
    (hlen : ∀ t, (fieldsOf t).length = stride) (hpos : 0 < stride)
    (hbody : ∀ (pre post : List String) (t : Tuple),
      body (pre ++ (fieldsOf t ++ post)) pre.length = g t) :
    ∀ (tuples : List Tuple) (pre : List String) (fuel : Nat) (bound : Int),
      tuples.length ≤ fuel →
      bound = (pre.length : Int) + (tuples.length : Int) * (stride : Int) →
      forLoop (.int bound) (pre ++ tuples.flatMap fieldsOf).length stride
        (body (pre ++ tuples.flatMap fieldsOf)) fuel pre.length = tuples.flatMap g := by
  intro tuples
  induction tuples with
  | nil =>
    intro pre fuel bound _ hb
    cases fuel with
    | zero => rfl
    | succ fuel =>
      have : ¬ ((pre.length : Int) < bound) := by rw [hb]; simp
      simp [forLoop, JSNum.lt, this]
  | cons t ts ih =>
    intro pre fuel bound hfuel hb
    cases fuel with
    | zero => simp at hfuel
    | succ fuel =>
      have hfuel2 : ts.length ≤ fuel := by simpa using hfuel
      have hst : (0 : Int) < (stride : Int) := by exact_mod_cast hpos
      have hlt : (pre.length : Int) < bound := by
        rw [hb]
        have : (0 : Int) ≤ (ts.length : Int) * (stride : Int) :=
          Int.mul_nonneg (Int.ofNat_nonneg _) (le_of_lt hst)
        simp only [List.length_cons]
        push_cast
        nlinarith
      have hparts : pre ++ (t :: ts).flatMap fieldsOf
          = (pre ++ fieldsOf t) ++ ts.flatMap fieldsOf := by
        simp [List.flatMap_cons, List.append_assoc]
      have hlen2 : pre.length < ((pre ++ fieldsOf t) ++ ts.flatMap fieldsOf).length := by
        simp only [List.length_append, hlen t]; omega
      have hidx : pre.length + stride = (pre ++ fieldsOf t).length := by
        simp [hlen t]
      have hb2 : bound = ((pre ++ fieldsOf t).length : Int) + (ts.length : Int) * (stride : Int) := by
        rw [hb, ← hidx]
        simp only [List.length_cons]
        push_cast
        ring
      have hrec := ih (pre ++ fieldsOf t) fuel bound hfuel2 hb2
      have hb1 : body ((pre ++ fieldsOf t) ++ ts.flatMap fieldsOf) pre.length = g t := by
        rw [List.append_assoc]; exact hbody pre _ t
      rw [hparts]
      unfold forLoop
      simp only [JSNum.lt, hlt, hlen2, decide_True, Bool.and_self, if_true, hb1, hidx, hrec,
        List.flatMap_cons]

theorem length_le_length_flatMap (f : Tuple → List String) (l : List Tuple)
    (h : ∀ t, 1 ≤ (f t).length) : l.length ≤ (l.flatMap f).length := by
  induction l with
  | nil => simp
  | cons t ts ih =>
    have := h t
    simp only [List.flatMap_cons, List.length_cons, List.length_append]
    omega

theorem menuBody2_at (depth : String) (hd : depth ≠ "3") (pre post : List String) (t : Tuple) :
    menuBody2 (pre ++ (tupleFields depth t ++ post)) pre.length = (tupleItem depth t).toList := by
  have e0 := trimmedAt_append_zero pre (tupleFields depth t ++ post)
  have e1 := trimmedAt_append pre (tupleFields depth t ++ post) 1
  simp only [tupleFields, if_neg hd] at e0 e1 ⊢
  unfold menuBody2
  rw [e0, e1]
  by_cases hn : (jsTrim t.name).data = []
  · simp [trimmedAt, tupleItem, truthy, hn]
  · simp [trimmedAt, tupleItem, truthy, hn, hd]

theorem menuBody3_at (pre post : List String) (t : Tuple) :
    menuBody3 (pre ++ (tupleFields "3" t ++ post)) pre.length = (tupleItem "3" t).toList := by
  have e0 := trimmedAt_append_zero pre (tupleFields "3" t ++ post)
  have e1 := trimmedAt_append pre (tupleFields "3" t ++ post) 1
  have e2 := trimmedAt_append pre (tupleFields "3" t ++ post) 2
  have e3 := trimmedAt_append pre (tupleFields "3" t ++ post) 3
  simp only [tupleFields, if_true] at e0 e1 e2 e3 ⊢
  unfold menuBody3
  rw [e0, e1, e2, e3]
  by_cases hn : (jsTrim t.name).data = []
  · simp [trimmedAt, tupleItem, truthy, hn]
  · simp [trimmedAt, tupleItem, truthy, hn]

/-- C2. For a payload `status;count;t_1;...;t_k` whose count field parses to
`k` and which holds exactly `k` complete tuples (name;date at depths '1' and
'2', name;date;access;likes at depth '3'), `parseMenuData` returns, in payload
order, one item per tuple with a non-empty trimmed name and none for the
others; an item carries the trimmed name, the decoded trimmed date and, at
depth '3', the trimmed access and likes.  The depth is any string: every
depth other than '3', in particular '1' and '2', uses the two-field tuples. -/
theorem parseMenuData_complete_payload (depth status count : String) (tuples : List Tuple)
    (hsep : ∀ f ∈ status :: count :: tuples.flatMap (tupleFields depth), ';' ∉ f.data)
    (hcount : parseInt10 (.str count) = .int (tuples.length : Int)) :
    parseMenuData (menuPayload depth status count tuples) depth
      = tuples.filterMap (tupleItem depth) := by
  unfold parseMenuData menuPayload
  rw [jsSplit_joinFields _ (by simp) hsep]
  cases tuples with
  | nil => simp
  | cons t ts =>
    have hparts : status :: count :: (t :: ts).flatMap (tupleFields depth)
        = [status, count] ++ (t :: ts).flatMap (tupleFields depth) := rfl
    have h3 : ¬ (status :: count :: (t :: ts).flatMap (tupleFields depth)).length < 3 := by
      simp only [List.flatMap_cons, List.length_cons, List.length_append, tupleFields]
      split <;> simp only [List.length_cons, List.length_nil] <;> omega
    have hfield : fieldAt (status :: count :: (t :: ts).flatMap (tupleFields depth)) 1
        = .str count := rfl
    simp only [h3, if_false, hfield, hcount, JSNum.mul, JSNum.add]
    rw [List.filterMap_eq_flatMap_toList]
    by_cases hd : depth = "3"
    · simp only [if_pos hd]
      rw [hparts]
      exact forLoop_tuples 4 menuBody3 (tupleFields depth) (fun t => (tupleItem depth t).toList)
        (fun t => by simp [tupleFields, hd]) (by decide) (fun pre post t => by
          subst hd; exact menuBody3_at pre post t) (t :: ts) [status, count] _ _
        (by
          have := length_le_length_flatMap (tupleFields depth) (t :: ts)
            (fun t => by simp only [tupleFields]; split <;> simp)
          simp only [List.length_cons, List.length_append, List.length_nil] at this ⊢
          omega)
        (by simp)
    · simp only [if_neg hd]
      rw [hparts]
      exact forLoop_tuples 2 menuBody2 (tupleFields depth) (fun t => (tupleItem depth t).toList)
        (fun t => by simp [tupleFields, hd]) (by decide) (menuBody2_at depth hd) (t :: ts)
        [status, count] _ _
        (by
          have := length_le_length_flatMap (tupleFields depth) (t :: ts)
            (fun t => by simp only [tupleFields]; split <;> simp)
          simp only [List.length_cons, List.length_append, List.length_nil] at this ⊢
          omega)
        (by simp)

/-- Witness for C2: the payload "0;2;Alpha;16912;Beta;17000" at depth '1'
gives the items "Alpha" and "Beta" dated `decodeDate "16912"` and
`decodeDate "17000"`. -/
theorem parseMenuData_complete_payload_witness :
    menuPayload "1" "0" "2" [⟨"Alpha", "16912", "", ""⟩, ⟨"Beta", "17000", "", ""⟩]
      = "0;2;Alpha;16912;Beta;17000" ∧
    parseMenuData "0;2;Alpha;16912;Beta;17000" "1"
      = [⟨"Alpha", decodeDate (.str "16912"), none, none⟩,
         ⟨"Beta", decodeDate (.str "17000"), none, none⟩] :=
  ⟨by decide,
   parseMenuData_complete_payload "1" "0" "2"
     [⟨"Alpha", "16912", "", ""⟩, ⟨"Beta", "17000", "", ""⟩]
     (by decide) (by decide)⟩

/-! ## parseGameData -/

theorem list_of_nine_le_length (parts : List String) (h : 9 ≤ parts.length) :
    ∃ p0 p1 p2 p3 p4 p5 p6 p7 p8 rest,
      parts = p0 :: p1 :: p2 :: p3 :: p4 :: p5 :: p6 :: p7 :: p8 :: rest := by
  rcases parts with _ | ⟨p0, _ | ⟨p1, _ | ⟨p2, _ | ⟨p3, _ | ⟨p4, _ | ⟨p5, _ | ⟨p6, _ |
    ⟨p7, _ | ⟨p8, rest⟩⟩⟩⟩⟩⟩⟩⟩⟩
  all_goals first
    | exact ⟨p0, p1, p2, p3, p4, p5, p6, p7, p8, rest, rfl⟩
    | (simp only [List.length_cons, List.length_nil] at h; omega)

/-- C3 (amended). For a payload with at least 9 fields `parseGameData` returns
a record whose filename, author, license, description, accessLevel, likes and
downloads are fields 1, 2, 3, 4, 6, 7 and 8 of the payload as they stand, and
whose downloadPath is the base URL followed by field 5 with its surrounding
white space removed. -/
theorem parseGameData_positional (payload : String) (h : 9 ≤ (jsSplit payload).length) :
    (parseGameData payload).isSome = true ∧
    (parseGameData payload).map (fun g => g.filename) = (jsSplit payload).get? 1 ∧
    (parseGameData payload).map (fun g => g.author) = (jsSplit payload).get? 2 ∧
    (parseGameData payload).map (fun g => g.license) = (jsSplit payload).get? 3 ∧
    (parseGameData payload).map (fun g => g.description) = (jsSplit payload).get? 4 ∧
    (parseGameData payload).map (fun g => g.downloadPath)
      = ((jsSplit payload).get? 5).map
          (fun f5 => "https://drive.google.com/file/d/" ++ jsTrim f5) ∧
    (parseGameData payload).map (fun g => g.accessLevel) = (jsSplit payload).get? 6 ∧
    (parseGameData payload).map (fun g => g.likes) = (jsSplit payload).get? 7 ∧
    (parseGameData payload).map (fun g => g.downloads) = (jsSplit payload).get? 8 := by
  obtain ⟨p0, p1, p2, p3, p4, p5, p6, p7, p8, rest, hp⟩ := list_of_nine_le_length _ h
  have hlt : ¬ (jsSplit payload).length < 9 := by omega
  have hg : parseGameData payload = some
      { filename := p1, author := p2, license := p3, description := p4,
        downloadPath := BASE_DOWNLOAD_URL ++ jsTrim p5,
        accessLevel := p6, likes := p7, downloads := p8 } := by
    unfold parseGameData
    simp only [hlt, if_false]
    rw [hp]
  rw [hg, hp]
  exact ⟨rfl, rfl, rfl, rfl, rfl, rfl, rfl, rfl, rfl⟩

/-- Witness for C3 (amended): the nine-field payload "a;b;c;d;e; f;g;h;i",
whose field 5 carries a leading blank. -/
theorem parseGameData_positional_witness :
    (parseGameData "a;b;c;d;e; f;g;h;i").isSome = true ∧
    (parseGameData "a;b;c;d;e; f;g;h;i").map (fun g => g.filename)
      = (jsSplit "a;b;c;d;e; f;g;h;i").get? 1 ∧
    (parseGameData "a;b;c;d;e; f;g;h;i").map (fun g => g.author)
      = (jsSplit "a;b;c;d;e; f;g;h;i").get? 2 ∧
    (parseGameData "a;b;c;d;e; f;g;h;i").map (fun g => g.license)
      = (jsSplit "a;b;c;d;e; f;g;h;i").get? 3 ∧
    (parseGameData "a;b;c;d;e; f;g;h;i").map (fun g => g.description)
      = (jsSplit "a;b;c;d;e; f;g;h;i").get? 4 ∧
    (parseGameData "a;b;c;d;e; f;g;h;i").map (fun g => g.downloadPath)
      = ((jsSplit "a;b;c;d;e; f;g;h;i").get? 5).map
          (fun f5 => "https://drive.google.com/file/d/" ++ jsTrim f5) ∧
    (parseGameData "a;b;c;d;e; f;g;h;i").map (fun g => g.accessLevel)
      = (jsSplit "a;b;c;d;e; f;g;h;i").get? 6 ∧
    (parseGameData "a;b;c;d;e; f;g;h;i").map (fun g => g.likes)
      = (jsSplit "a;b;c;d;e; f;g;h;i").get? 7 ∧
    (parseGameData "a;b;c;d;e; f;g;h;i").map (fun g => g.downloads)
      = (jsSplit "a;b;c;d;e; f;g;h;i").get? 8 :=
  parseGameData_positional "a;b;c;d;e; f;g;h;i" (by decide)

/-- C3 (counterexample). The payload "a;b;c;d;e; f;g;h;i" has nine fields and
its field 5 is " f", with a leading blank; the downloadPath returned ends in
"f", so it is not the base URL followed by field 5. -/
theorem parseGameData_downloadPath_not_raw_field :
    (jsSplit "a;b;c;d;e; f;g;h;i").length = 9 ∧
    (jsSplit "a;b;c;d;e; f;g;h;i").get? 5 = some " f" ∧
    (parseGameData "a;b;c;d;e; f;g;h;i").map (fun g => g.downloadPath)
      = some "https://drive.google.com/file/d/f" ∧
    (parseGameData "a;b;c;d;e; f;g;h;i").map (fun g => g.downloadPath)
      ≠ some ("https://drive.google.com/file/d/" ++ " f") := by
  decide

/-! ## fetchMenuData -/

theorem string_data_ne_nil {s : String} (h : s ≠ "") : s.data ≠ [] :=
  fun e => h (String.ext e)

/-- C4 (amended). Cache hit: when the store holds, under the storage key of
the request's fingerprint, an entry whose data is not the empty string and
whose age `now - timestamp` is at most 24h, `fetchMenuData` returns that
entry's data, makes no network request and leaves the store unchanged. -/
theorem fetchMenuData_cache_hit (params : Params) (store : Store) (env : Env)
    (entry : CacheEntry)
    (hentry : store (storageKey (cacheKeyOf params)) = some entry)
    (hfresh : env.now - entry.timestamp ≤ 24 * 60 * 60 * 1000)
    (hdata : entry.data ≠ "") :
    (fetchMenuData params store env).data = entry.data ∧
    (fetchMenuData params store env).requests = [] ∧
    (fetchMenuData params store env).store = store := by
  have hd := string_data_ne_nil hdata
  have hinv : shouldInvalidateCache store env.now (cacheKeyOf params) = false := by
    simp only [shouldInvalidateCache, hentry, CACHE_EXPIRY_MS]
    simp only [decide_eq_false_iff_not, not_lt, gt_iff_lt]
    exact hfresh
  simp only [fetchMenuData, getCachedData, hentry, hinv, and_self, if_true, ne_eq, hd,
    not_false_eq_true]

/-- Witness for C4 (amended): a fresh one-item menu under the key "1_0", with
an endpoint that would fail. -/
theorem fetchMenuData_cache_hit_witness :
    (fetchMenuData rootParams menuStore offlineEnv).data = "0;1;Games;16912" ∧
    (fetchMenuData rootParams menuStore offlineEnv).requests = [] ∧
    (fetchMenuData rootParams menuStore offlineEnv).store = menuStore :=
  fetchMenuData_cache_hit rootParams menuStore offlineEnv
    { data := "0;1;Games;16912", timestamp := 1000 } (by decide) (by decide) (by decide)

/-- C4 (counterexample). The store holds, under the fingerprint "1_0", an
entry of age 0 whose data is the empty string; `fetchMenuData` nevertheless
sends a network request, returns the response body instead of the entry's
data, and overwrites the entry. -/
theorem fetchMenuData_empty_entry_not_a_hit :
    cacheKeyOf rootParams = "1_0" ∧
    emptyPayloadStore (storageKey "1_0") = some { data := "", timestamp := 1000 } ∧
    onlineEnv.now - 1000 ≤ CACHE_EXPIRY_MS ∧
    (fetchMenuData rootParams emptyPayloadStore onlineEnv).requests = [rootParams] ∧
    (fetchMenuData rootParams emptyPayloadStore onlineEnv).data = "0;1;Tools;16912" ∧
    (fetchMenuData rootParams emptyPayloadStore onlineEnv).store (storageKey "1_0")
      = some { data := "0;1;Tools;16912", timestamp := 1000 } := by
  decide

/-- C5 (amended). Stale serving on failure: when the endpoint fails and the
store holds, under the request's fingerprint, an entry of any age whose data
is not the empty string, `fetchMenuData` returns that entry's data and leaves
the store unchanged; it always returns a string. -/
theorem fetchMenuData_stale_on_failure (params : Params) (store : Store) (env : Env)
    (entry : CacheEntry)
    (hfail : env.net params = .failed)
    (hentry : store (storageKey (cacheKeyOf params)) = some entry)
    (hdata : entry.data ≠ "") :
    (fetchMenuData params store env).data = entry.data ∧
    (fetchMenuData params store env).store = store := by
  have hd := string_data_ne_nil hdata
  cases hinv : shouldInvalidateCache store env.now (cacheKeyOf params)
  · simp only [fetchMenuData, getCachedData, hentry, hinv, and_self, if_true, ne_eq, hd,
      not_false_eq_true]
  · simp only [fetchMenuData, getCachedData, hentry, hinv, and_false, if_false, ne_eq, hd,
      not_false_eq_true, hfail, if_true, and_self, Bool.true_eq_false]

/-- Witness for C5 (amended): an entry written at time 1000 and read ten days
later, with the endpoint failing. -/
theorem fetchMenuData_stale_on_failure_witness :
    (fetchMenuData rootParams menuStore
        { now := 864001000, nowAtStore := 864001000, net := fun _ => .failed }).data
      = "0;1;Games;16912" ∧
    (fetchMenuData rootParams menuStore
        { now := 864001000, nowAtStore := 864001000, net := fun _ => .failed }).store
      = menuStore :=
  fetchMenuData_stale_on_failure rootParams menuStore
    { now := 864001000, nowAtStore := 864001000, net := fun _ => .failed }
    { data := "0;1;Games;16912", timestamp := 1000 } rfl (by decide) (by decide)

/-- C5 (counterexample). The endpoint fails and the store holds an entry under
the fingerprint "1_0" whose data is the empty string; `fetchMenuData` returns
the hardcoded default "0;0;", not the entry's data. -/
theorem fetchMenuData_empty_entry_gives_default :
    offlineEnv.net rootParams = .failed ∧
    emptyPayloadStore (storageKey (cacheKeyOf rootParams))
      = some { data := "", timestamp := 1000 } ∧
    (fetchMenuData rootParams emptyPayloadStore offlineEnv).data = "0;0;" ∧
    (fetchMenuData rootParams emptyPayloadStore offlineEnv).data ≠ "" := by
  decide

/-- C6. Default on total failure: when the endpoint fails and the store holds
no entry under the request's fingerprint, `fetchMenuData` returns exactly
"1;2;3;4;5;6;7;8;9" at depth '4' and exactly "0;0;" at every other depth, and
leaves the store unchanged. -/
theorem fetchMenuData_default_on_failure (params : Params) (store : Store) (env : Env)
    (hfail : env.net params = .failed)
    (hnone : store (storageKey (cacheKeyOf params)) = none) :
    (fetchMenuData params store env).data
      = (if params.cmd = "4" then "1;2;3;4;5;6;7;8;9" else "0;0;") ∧
    (fetchMenuData params store env).store = store := by
  simp only [fetchMenuData, getCachedData, hnone, hfail, defaultPayload, and_self]

/-- Witness for C6: an empty store and a failing endpoint, at depth '4' and at depth '1'. -/
theorem fetchMenuData_default_on_failure_witness :
    ((fetchMenuData detailParams emptyStore offlineEnv).data
        = (if detailParams.cmd = "4" then "1;2;3;4;5;6;7;8;9" else "0;0;") ∧
      (fetchMenuData detailParams emptyStore offlineEnv).store = emptyStore) ∧
    (fetchMenuData detailParams emptyStore offlineEnv).data = "1;2;3;4;5;6;7;8;9" ∧
    (fetchMenuData rootParams emptyStore offlineEnv).data = "0;0;" :=
  ⟨fetchMenuData_default_on_failure detailParams emptyStore offlineEnv rfl rfl,
   by decide, by decide⟩

/-! ## Navigation -/

/-- The screen rendered for a request from the payload fetched for it. -/
theorem loadAndShowMenu_display (params : Params) (isBack : Bool) (st : AppState) (env : Env) :
    (loadAndShowMenu params isBack st env).display =
      (if params.cmd = "4" then
        Display.details (parseGameData (fetchMenuData params st.store env).data)
      else
        Display.menu (parseMenuData (fetchMenuData params st.store env).data params.cmd)
          params) := rfl

/-- C7. `goBack` on a history `hs ++ [f, g]` (at least two frames) removes the
top frame `g` and re-enters `f` as a back navigation: the payload fetched is
the one of `fetchMenuData` for exactly the parameters `f`, every network
request made is a request for `f`, the screen is the render of that payload
for `f`, and the history ends as `hs ++ [f]`, with `f` not pushed again.  In
particular, entering `f1` and then `f2` from any state and going back once
ends with the history of the state after `f1` was entered and with the screen
of `f1` rendered for exactly the parameters `f1`. -/
theorem goBack_reenters_previous (st : AppState) (env : Env) (hs : List Params) (f g : Params)
    (hhist : st.menuHistory = hs ++ [f, g]) :
    (goBack st env).menuHistory = hs ++ [f] ∧
    goBack st env = loadAndShowMenu f true { st with menuHistory := hs ++ [f] } env ∧
    (goBack st env).display =
      (if f.cmd = "4" then
        Display.details (parseGameData (fetchMenuData f st.store env).data)
      else Display.menu (parseMenuData (fetchMenuData f st.store env).data f.cmd) f) ∧
    (goBack st env).requests = st.requests ++ (fetchMenuData f st.store env).requests ∧
    (∀ r ∈ (fetchMenuData f st.store env).requests, r = f) ∧
    (∀ (st0 : AppState) (e1 e2 : Env) (f1 f2 : Params),
      (goBack (loadAndShowMenu f2 false (loadAndShowMenu f1 false st0 e1) e2) env).menuHistory
          = (loadAndShowMenu f1 false st0 e1).menuHistory ∧
      (goBack (loadAndShowMenu f2 false (loadAndShowMenu f1 false st0 e1) e2) env).menuHistory
          = st0.menuHistory ++ [f1] ∧
      (goBack (loadAndShowMenu f2 false (loadAndShowMenu f1 false st0 e1) e2) env).display
          = (if f1.cmd = "4" then
              Display.details (parseGameData (fetchMenuData f1
                (loadAndShowMenu f2 false (loadAndShowMenu f1 false st0 e1) e2).store env).data)
            else
              Display.menu (parseMenuData (fetchMenuData f1
                (loadAndShowMenu f2 false (loadAndShowMenu f1 false st0 e1) e2).store env).data
                f1.cmd) f1)) := by
  have hgo : ∀ (s : AppState) (l : List Params) (a b : Params), s.menuHistory = l ++ [a, b] →
      goBack s env = loadAndShowMenu a true { s with menuHistory := l ++ [a] } env := by
    intro s l a b hh
    have hlen : ¬ s.menuHistory.length < 2 := by
      rw [hh]; simp
    have hpop : s.menuHistory.dropLast = l ++ [a] := by
      rw [hh, show l ++ [a, b] = (l ++ [a]) ++ [b] by simp, List.dropLast_concat]
    unfold goBack
    simp only [hlen, if_false, hpop, List.getLast?_concat]
  have hreq : ∀ (p : Params) (s : Store) (e : Env), ∀ r ∈ (fetchMenuData p s e).requests, r = p := by
    intro p s e r hr
    cases hnet : e.net p <;> cases hc : getCachedData s (cacheKeyOf p) <;>
      simp only [fetchMenuData, hnet, hc] at hr <;>
      (try split_ifs at hr) <;> simp_all
  have h1 := hgo st hs f g hhist
  refine ⟨by rw [h1]; rfl, h1, by rw [h1]; rfl, by rw [h1]; rfl, hreq f st.store env, ?_⟩
  intro st0 e1 e2 f1 f2
  have h2 := hgo (loadAndShowMenu f2 false (loadAndShowMenu f1 false st0 e1) e2)
    st0.menuHistory f1 f2 (by simp [loadAndShowMenu])
  refine ⟨by rw [h2]; rfl, by rw [h2]; rfl, by rw [h2]; rfl⟩

/-- Witness for C7: going back from the two-frame history [root, games]. -/
theorem goBack_reenters_previous_witness :
    (goBack twoFrameState offlineEnv).menuHistory = [] ++ [rootParams] ∧
    (goBack twoFrameState offlineEnv).display = Display.menu [] rootParams :=
  ⟨(goBack_reenters_previous twoFrameState offlineEnv [] rootParams gamesParams rfl).1,
   by decide⟩

/-! ## The parsing loop in general -/

/-- Whatever the loop returns was pushed by the body at a visited index
`i + k * stride`, which is below the bound and below the length. -/
theorem forLoop_mem (bound : JSNum) (len stride : Nat) (body : Nat → List MenuItem)
    (x : MenuItem) :
    ∀ (fuel i : Nat), x ∈ forLoop bound len stride body fuel i →
      ∃ k : Nat, (JSNum.int ((i + k * stride : Nat) : Int)).lt bound = true ∧
        i + k * stride < len ∧ x ∈ body (i + k * stride) := by
  intro fuel
  induction fuel with
  | zero => intro i h; simp [forLoop] at h
  | succ fuel ih =>
    intro i h
    unfold forLoop at h
    by_cases hc : ((JSNum.int (i : Int)).lt bound && decide (i < len)) = true
    · rw [if_pos hc] at h
      have hc2 := hc
      simp only [Bool.and_eq_true, decide_eq_true_eq] at hc2
      rcases List.mem_append.mp h with h1 | h2
      · exact ⟨0, by simpa using hc2.1, by simpa using hc2.2, by simpa using h1⟩
      · obtain ⟨k, hk1, hk2, hk3⟩ := ih (i + stride) h2
        have e : i + stride + k * stride = i + (k + 1) * stride := by
          rw [Nat.succ_mul]; omega
        rw [e] at hk1 hk2 hk3
        exact ⟨k + 1, hk1, hk2, hk3⟩
    · rw [if_neg hc] at h
      simp at h

/-- Every index `i + k * stride` that is below an integer bound and below the
length is visited, given fuel for `k + 1` iterations. -/
theorem forLoop_mem_of_visited (B : Int) (len stride : Nat) (body : Nat → List MenuItem)
    (x : MenuItem) :
    ∀ (fuel i k : Nat), k < fuel → ((i + k * stride : Nat) : Int) < B → i + k * stride < len →
      x ∈ body (i + k * stride) → x ∈ forLoop (.int B) len stride body fuel i := by
  intro fuel
  induction fuel with
  | zero => intro i k hk; omega
  | succ fuel ih =>
    intro i k hk hB hlen hx
    have hi1 : (i : Int) < B := by
      have : i ≤ i + k * stride := Nat.le_add_right _ _
      have : (i : Int) ≤ ((i + k * stride : Nat) : Int) := by exact_mod_cast this
      omega
    have hi2 : i < len := by
      have : i ≤ i + k * stride := Nat.le_add_right _ _
      omega
    unfold forLoop
    simp only [JSNum.lt, hi1, hi2, decide_True, Bool.and_self, if_true]
    cases k with
    | zero => exact List.mem_append_left _ (by simpa using hx)
    | succ k =>
      have e : i + (k + 1) * stride = i + stride + k * stride := by
        rw [Nat.succ_mul]; omega
      rw [e] at hB hlen hx
      exact List.mem_append_right _ (ih (i + stride) k (by omega) hB hlen hx)

theorem mem_menuBody2_iff (parts : List String) (i : Nat) (x : MenuItem) :
    x ∈ menuBody2 parts i ↔
      ∃ name, parts.get? i = some name ∧ (jsTrim name).data ≠ [] ∧
        x = { name := jsTrim name, date := decodeDate (trimmedAt parts (i + 1)),
              access := none, likes := none } := by
  unfold menuBody2
  cases hg : parts.get? i with
  | none =>
    have h0 : trimmedAt parts i = .undefined := by simp only [trimmedAt, hg]
    simp [h0]
  | some name =>
    have h0 : trimmedAt parts i = .str (jsTrim name) := by simp only [trimmedAt, hg]
    by_cases hn : (jsTrim name).data = []
    · simp [h0, truthy, hn]
    · simp [h0, truthy, hn]

theorem mem_menuBody3_iff (parts : List String) (i : Nat) (x : MenuItem) :
    x ∈ menuBody3 parts i ↔
      ∃ name, parts.get? i = some name ∧ (jsTrim name).data ≠ [] ∧
        x = { name := jsTrim name, date := decodeDate (trimmedAt parts (i + 1)),
              access := some (trimmedAt parts (i + 2)),
              likes := some (trimmedAt parts (i + 3)) } := by
  unfold menuBody3
  cases hg : parts.get? i with
  | none =>
    have h0 : trimmedAt parts i = .undefined := by simp only [trimmedAt, hg]
    simp [h0]
  | some name =>
    have h0 : trimmedAt parts i = .str (jsTrim name) := by simp only [trimmedAt, hg]
    by_cases hn : (jsTrim name).data = []
    · simp [h0, truthy, hn]
    · simp [h0, truthy, hn]

/-- The parser as a loop over the fields, with the stride and body of the depth. -/
theorem parseMenuData_eq_forLoop (payload depth : String)
    (h3 : ¬ (jsSplit payload).length < 3) :
    parseMenuData payload depth =
      forLoop ((JSNum.int 2).add ((parseInt10 (fieldAt (jsSplit payload) 1)).mul
          (.int (menuStride depth))))
        (jsSplit payload).length (menuStride depth)
        (if depth = "3" then menuBody3 (jsSplit payload) else menuBody2 (jsSplit payload))
        (jsSplit payload).length 2 := by
  unfold parseMenuData menuStride
  by_cases hd : depth = "3"
  · simp only [h3, if_false, hd, if_true]; rfl
  · simp only [h3, if_false, hd]; rfl

theorem mem_menuBody_iff (depth : String) (parts : List String) (i : Nat) (x : MenuItem) :
    x ∈ (if depth = "3" then menuBody3 parts else menuBody2 parts) i ↔
      ∃ name, parts.get? i = some name ∧ (jsTrim name).data ≠ [] ∧
        x = groupItem depth parts i (jsTrim name) := by
  by_cases hd : depth = "3"
  · simp only [hd, if_true, groupItem]; exact mem_menuBody3_iff parts i x
  · simp only [hd, if_false, groupItem]; exact mem_menuBody2_iff parts i x

theorem menuStride_pos (depth : String) : 0 < menuStride depth := by
  unfold menuStride; split <;> decide

/-- Membership in the result of the parser. -/
theorem mem_parseMenuData_iff (payload depth : String) (item : MenuItem) :
    item ∈ parseMenuData payload depth ↔
      ∃ (k : Nat) (c : Int) (name : String),
        parseInt10 (fieldAt (jsSplit payload) 1) = .int c ∧ (k : Int) < c ∧
        (jsSplit payload).get? (2 + k * menuStride depth) = some name ∧
        (jsTrim name).data ≠ [] ∧
        item = groupItem depth (jsSplit payload) (2 + k * menuStride depth) (jsTrim name) := by
  have hs := menuStride_pos depth
  constructor
  · intro h
    by_cases h3 : (jsSplit payload).length < 3
    · simp [parseMenuData, h3] at h
    · rw [parseMenuData_eq_forLoop payload depth h3] at h
      obtain ⟨k, hk1, hk2, hk3⟩ := forLoop_mem _ _ _ _ _ _ _ h
      obtain ⟨name, hn1, hn2, hn3⟩ := (mem_menuBody_iff depth _ _ _).mp hk3
      cases hc : parseInt10 (fieldAt (jsSplit payload) 1) with
      | nan => simp [hc, JSNum.mul, JSNum.add, JSNum.lt] at hk1
      | int c =>
        refine ⟨k, c, name, rfl, ?_, hn1, hn2, hn3⟩
        simp only [hc, JSNum.mul, JSNum.add, JSNum.lt, decide_eq_true_eq] at hk1
        push_cast at hk1
        have hs2 : (0 : Int) < (menuStride depth : Int) := by exact_mod_cast hs
        by_contra hcon
        have : c ≤ (k : Int) := not_lt.mp hcon
        have := Int.mul_le_mul_of_nonneg_right this (le_of_lt hs2)
        omega
  · rintro ⟨k, c, name, hc, hk, hn1, hn2, hn3⟩
    have hlen : 2 + k * menuStride depth < (jsSplit payload).length := by
      rw [List.get?_eq_getElem?] at hn1
      by_contra hcon
      rw [List.getElem?_eq_none (not_lt.mp hcon)] at hn1
      exact absurd hn1 (by simp)
    have h3 : ¬ (jsSplit payload).length < 3 := by omega
    rw [parseMenuData_eq_forLoop payload depth h3, hc]
    simp only [JSNum.mul, JSNum.add]
    have hkfuel : k < (jsSplit payload).length := by
      have : k ≤ k * menuStride depth := Nat.le_mul_of_pos_right k hs
      omega
    refine forLoop_mem_of_visited _ _ _ _ item _ 2 k hkfuel ?_ hlen
      ((mem_menuBody_iff depth _ _ _).mpr ⟨name, hn1, hn2, hn3⟩)
    push_cast
    have hs2 : (0 : Int) < (menuStride depth : Int) := by exact_mod_cast hs
    have : (k : Int) + 1 ≤ c := hk
    have := Int.mul_le_mul_of_nonneg_right this (le_of_lt hs2)
    nlinarith

/-- When each iteration pushes at most one item, the `m`-th item of the result
witnesses a visited index `i + m * stride`. -/
theorem forLoop_index_of_lt_length (bound : JSNum) (len stride : Nat)
    (body : Nat → List MenuItem) (hbody : ∀ j, (body j).length ≤ 1) :
    ∀ (fuel i m : Nat), m < (forLoop bound len stride body fuel i).length →
      (JSNum.int ((i + m * stride : Nat) : Int)).lt bound = true ∧ i + m * stride < len := by
  intro fuel
  induction fuel with
  | zero => intro i m h; simp [forLoop] at h
  | succ fuel ih =>
    intro i m h
    unfold forLoop at h
    by_cases hc : ((JSNum.int (i : Int)).lt bound && decide (i < len)) = true
    · rw [if_pos hc] at h
      have hc2 := hc
      simp only [Bool.and_eq_true, decide_eq_true_eq] at hc2
      cases m with
      | zero => exact ⟨by simpa using hc2.1, by simpa using hc2.2⟩
      | succ m =>
        have hb := hbody i
        rw [List.length_append] at h
        have hm : m < (forLoop bound len stride body fuel (i + stride)).length := by omega
        have e : i + stride + m * stride = i + (m + 1) * stride := by
          rw [Nat.succ_mul]; omega
        have := ih (i + stride) m hm
        rw [e] at this
        exact this
    · rw [if_neg hc] at h
      simp at h

theorem forLoop_nan (len stride : Nat) (body : Nat → List MenuItem) (fuel i : Nat) :
    forLoop .nan len stride body fuel i = [] := by
  cases fuel <;> simp [forLoop, JSNum.lt]

theorem forLoop_of_bound_le (B : Int) (len stride : Nat) (body : Nat → List MenuItem)
    (fuel i : Nat) (h : B ≤ (i : Int)) :
    forLoop (.int B) len stride body fuel i = [] := by
  cases fuel with
  | zero => rfl
  | succ fuel =>
    have : ¬ ((i : Int) < B) := by omega
    simp [forLoop, JSNum.lt, this]

/-- The loop reads the body at visited indices only. -/
theorem forLoop_congr_visited (bound : JSNum) (len stride : Nat)
    (body body2 : Nat → List MenuItem) :
    ∀ (fuel i : Nat),
      (∀ k : Nat, (JSNum.int ((i + k * stride : Nat) : Int)).lt bound = true →
        i + k * stride < len → body (i + k * stride) = body2 (i + k * stride)) →
      forLoop bound len stride body fuel i = forLoop bound len stride body2 fuel i := by
  intro fuel
  induction fuel with
  | zero => intro i _; rfl
  | succ fuel ih =>
    intro i h
    unfold forLoop
    by_cases hc : ((JSNum.int (i : Int)).lt bound && decide (i < len)) = true
    · rw [if_pos hc, if_pos hc]
      have hc2 := hc
      simp only [Bool.and_eq_true, decide_eq_true_eq] at hc2
      have h0 := h 0 (by simpa using hc2.1) (by simpa using hc2.2)
      simp only [Nat.zero_mul, Nat.add_zero] at h0
      rw [h0, ih (i + stride)]
      intro k hk1 hk2
      have e : i + stride + k * stride = i + (k + 1) * stride := by
        rw [Nat.succ_mul]; omega
      rw [e] at hk1 hk2 ⊢
      exact h (k + 1) hk1 hk2
    · rw [if_neg hc, if_neg hc]

/-- Two lengths that cut the indices below the bound at the same place give the
same loop. -/
theorem forLoop_len_congr (bound : JSNum) (len len2 stride : Nat) (body : Nat → List MenuItem)
    (h : ∀ j : Nat, (JSNum.int (j : Int)).lt bound = true → (j < len ↔ j < len2)) :
    ∀ (fuel i : Nat),
      forLoop bound len stride body fuel i = forLoop bound len2 stride body fuel i := by
  intro fuel
  induction fuel with
  | zero => intro i; rfl
  | succ fuel ih =>
    intro i
    unfold forLoop
    rw [ih (i + stride)]
    cases hb : (JSNum.int (i : Int)).lt bound with
    | false => simp
    | true =>
      have := h i hb
      by_cases hl : i < len
      · have hl2 : i < len2 := this.mp hl
        simp [hl, hl2]
      · have hl2 : ¬ i < len2 := fun x => hl (this.mpr x)
        simp [hl, hl2]

/-- With a positive stride, any fuel that reaches the end of the array gives
the same result. -/
theorem forLoop_fuel_irrelevant (bound : JSNum) (len stride : Nat) (body : Nat → List MenuItem)
    (hpos : 0 < stride) (i f1 f2 : Nat) (h1 : len - i ≤ f1) (h2 : len - i ≤ f2) :
    forLoop bound len stride body f1 i = forLoop bound len stride body f2 i := by
  have e1 := forLoop_fuel_enough bound len stride body hpos i (f1 - (len - i))
  have e2 := forLoop_fuel_enough bound len stride body hpos i (f2 - (len - i))
  rw [show len - i + (f1 - (len - i)) = f1 by omega] at e1
  rw [show len - i + (f2 - (len - i)) = f2 by omega] at e2
  rw [e1, e2]

theorem menuBody_length_le_one (depth : String) (parts : List String) (i : Nat) :
    ((if depth = "3" then menuBody3 parts else menuBody2 parts) i).length ≤ 1 := by
  by_cases hd : depth = "3"
  · simp only [hd, if_true, menuBody3]
    cases trimmedAt parts i with
    | str n => by_cases ht : truthy (.str n) = true <;> simp [ht]
    | undefined => simp
    | null => simp
    | num n => simp
  · simp only [hd, if_false, menuBody2]
    cases trimmedAt parts i with
    | str n => by_cases ht : truthy (.str n) = true <;> simp [ht]
    | undefined => simp
    | null => simp
    | num n => simp

theorem menuBody_congr (depth : String) (parts parts2 : List String) (i : Nat)
    (h : ∀ d, d < menuStride depth → trimmedAt parts (i + d) = trimmedAt parts2 (i + d)) :
    (if depth = "3" then menuBody3 parts else menuBody2 parts) i
      = (if depth = "3" then menuBody3 parts2 else menuBody2 parts2) i := by
  by_cases hd : depth = "3"
  · have hs : menuStride depth = 4 := by simp [menuStride, hd]
    have h0 := h 0 (by omega)
    have h1 := h 1 (by omega)
    have h2 := h 2 (by omega)
    have h3 := h 3 (by omega)
    simp only [Nat.add_zero] at h0
    simp only [hd, if_true]
    unfold menuBody3
    rw [h0, h1, h2, h3]
  · have hs : menuStride depth = 2 := by simp [menuStride, hd]
    have h0 := h 0 (by omega)
    have h1 := h 1 (by omega)
    simp only [Nat.add_zero] at h0
    simp only [hd, if_false]
    unfold menuBody2
    rw [h0, h1]

theorem splitChars_ne_nil (sep : Char) (cs : List Char) : splitChars sep cs ≠ [] := by
  induction cs with
  | nil => simp [splitChars]
  | cons c cs ih =>
    unfold splitChars
    split
    · simp
    · split <;> simp

theorem not_mem_of_mem_splitChars (sep : Char) (cs : List Char) :
    ∀ f ∈ splitChars sep cs, sep ∉ f := by
  induction cs with
  | nil => intro f hf; simp [splitChars] at hf; simp [hf]
  | cons c cs ih =>
    intro f hf
    unfold splitChars at hf
    by_cases hc : c = sep
    · rw [if_pos hc] at hf
      rcases List.mem_cons.mp hf with h | h
      · simp [h]
      · exact ih f h
    · rw [if_neg hc] at hf
      cases hsp : splitChars sep cs with
      | nil => exact absurd hsp (splitChars_ne_nil sep cs)
      | cons g gs =>
        rw [hsp] at hf ih
        rcases List.mem_cons.mp hf with h | h
        · rw [h]
          intro hm
          rcases List.mem_cons.mp hm with h1 | h1
          · exact hc h1.symm
          · exact ih g (List.mem_cons_self _ _) h1
        · exact ih f (List.mem_cons_of_mem _ h)

theorem jsSplit_ne_nil (s : String) : jsSplit s ≠ [] := by
  unfold jsSplit
  intro h
  exact splitChars_ne_nil ';' s.data (List.map_eq_nil_iff.mp h)

theorem not_mem_of_mem_jsSplit (s : String) : ∀ f ∈ jsSplit s, ';' ∉ f.data := by
  intro f hf
  unfold jsSplit at hf
  obtain ⟨g, hg, rfl⟩ := List.mem_map.mp hf
  exact not_mem_of_mem_splitChars ';' s.data g hg

/-- The parser reads the payload through its fields only. -/
theorem parseMenuData_congr_split (p1 p2 depth : String) (h : jsSplit p1 = jsSplit p2) :
    parseMenuData p1 depth = parseMenuData p2 depth := by
  unfold parseMenuData
  rw [h]

/-- Splitting the payload rebuilt from a prefix of the fields gives that prefix
back when the prefix is not empty. -/
theorem jsSplit_joinFields_take (payload : String) (m : Nat) (hm : 0 < m) :
    jsSplit (joinFields ((jsSplit payload).take m)) = (jsSplit payload).take m := by
  apply jsSplit_joinFields
  · intro h
    have hne := jsSplit_ne_nil payload
    cases hp : jsSplit payload with
    | nil => exact hne hp
    | cons a l =>
      rw [hp] at h
      cases m with
      | zero => omega
      | succ m => simp at h
  · intro f hf
    exact not_mem_of_mem_jsSplit payload f (List.mem_of_mem_take hf)

theorem parseMenuData_of_short (payload depth : String) (h : (jsSplit payload).length < 3) :
    parseMenuData payload depth = [] := by
  simp [parseMenuData, h]

theorem parseMenuData_of_nan (payload depth : String)
    (h : parseInt10 (fieldAt (jsSplit payload) 1) = .nan) :
    parseMenuData payload depth = [] := by
  by_cases h3 : (jsSplit payload).length < 3
  · exact parseMenuData_of_short payload depth h3
  · rw [parseMenuData_eq_forLoop payload depth h3, h]
    exact forLoop_nan _ _ _ _ _

theorem parseMenuData_of_nonpos (payload depth : String) (c : Int) (hc0 : c ≤ 0)
    (h : parseInt10 (fieldAt (jsSplit payload) 1) = .int c) :
    parseMenuData payload depth = [] := by
  by_cases h3 : (jsSplit payload).length < 3
  · exact parseMenuData_of_short payload depth h3
  · rw [parseMenuData_eq_forLoop payload depth h3, h]
    apply forLoop_of_bound_le
    have hs : (0 : Int) ≤ (menuStride depth : Int) := Int.ofNat_nonneg _
    have := Int.mul_nonpos_of_nonpos_of_nonneg hc0 hs
    push_cast
    omega

theorem parseMenuData_length_le (payload depth : String) (c : Int)
    (h : parseInt10 (fieldAt (jsSplit payload) 1) = .int c) :
    ((parseMenuData payload depth).length : Int)
      ≤ max 0 (min c ⌈(((jsSplit payload).length : ℚ) - 2) / (menuStride depth : ℚ)⌉) := by
  have hs := menuStride_pos depth
  by_cases h3 : (jsSplit payload).length < 3
  · rw [parseMenuData_of_short payload depth h3]
    exact le_max_left _ _
  · by_cases hL : (parseMenuData payload depth).length = 0
    · rw [hL]
      exact le_max_left _ _
    · have hidx : ∀ m, m < (parseMenuData payload depth).length →
          ((2 + m * menuStride depth : Nat) : Int) < 2 + c * (menuStride depth : Int) ∧
          2 + m * menuStride depth < (jsSplit payload).length := by
        intro m hm
        rw [parseMenuData_eq_forLoop payload depth h3, h] at hm
        have := forLoop_index_of_lt_length _ _ _ _ (menuBody_length_le_one depth _) _ _ m hm
        simpa [JSNum.mul, JSNum.add, JSNum.lt] using this
      generalize (parseMenuData payload depth).length = L at hL hidx
      obtain ⟨m, rfl⟩ : ∃ m, L = m + 1 := ⟨L - 1, by omega⟩
      obtain ⟨hm1, hm2⟩ := hidx m (by omega)
      have hs2 : (0 : Int) < (menuStride depth : Int) := by exact_mod_cast hs
      apply le_max_of_le_right
      apply le_min
      · push_cast at hm1 ⊢
        by_contra hcon
        have : c ≤ (m : Int) := by omega
        have := Int.mul_le_mul_of_nonneg_right this (le_of_lt hs2)
        omega
      · rw [Int.le_ceil_iff]
        have hsq : (0 : ℚ) < (menuStride depth : ℚ) := by exact_mod_cast hs
        rw [lt_div_iff₀ hsq]
        have : ((2 + m * menuStride depth : Nat) : ℚ) < ((jsSplit payload).length : ℚ) := by
          exact_mod_cast hm2
        push_cast at this ⊢
        linarith

theorem trimmedAt_take (parts : List String) (m j : Nat) (h : j < m) :
    trimmedAt (parts.take m) j = trimmedAt parts j := by
  unfold trimmedAt
  rw [List.get?_eq_getElem?, List.get?_eq_getElem?, List.getElem?_take_of_lt h]

theorem fieldAt_take (parts : List String) (m j : Nat) (h : j < m) :
    fieldAt (parts.take m) j = fieldAt parts j := by
  unfold fieldAt
  rw [List.get?_eq_getElem?, List.get?_eq_getElem?, List.getElem?_take_of_lt h]

/-- The parser reads only the fields below `min (2 + c * stride) n`: the
payload cut after that many fields parses to the same items. -/
theorem parseMenuData_take (payload depth : String) (c : Int)
    (h : parseInt10 (fieldAt (jsSplit payload) 1) = .int c) :
    parseMenuData (joinFields ((jsSplit payload).take
        (min (2 + c * (menuStride depth : Int)) ((jsSplit payload).length : Int)).toNat)) depth
      = parseMenuData payload depth := by
  have hs := menuStride_pos depth
  have hs2 : (0 : Int) < (menuStride depth : Int) := by exact_mod_cast hs
  have hne := jsSplit_ne_nil payload
  have hn1 : 1 ≤ (jsSplit payload).length := by
    cases hp : jsSplit payload with
    | nil => exact absurd hp hne
    | cons a l => simp
  generalize hm : (min (2 + c * (menuStride depth : Int)) ((jsSplit payload).length : Int)).toNat
    = m
  by_cases hc0 : c ≤ 0
  · -- nothing is read: both sides are empty
    rw [parseMenuData_of_nonpos payload depth c hc0 h]
    apply parseMenuData_of_short
    have hmul := Int.mul_nonpos_of_nonpos_of_nonneg hc0 (le_of_lt hs2)
    have hm2 : m ≤ 2 := by omega
    by_cases hm0 : m = 0
    · subst hm0
      simp only [List.take_zero]
      decide
    · rw [jsSplit_joinFields_take payload m (by omega), List.length_take]
      omega
  · have hc1 : 1 ≤ c := by omega
    have hmul : (menuStride depth : Int) ≤ c * (menuStride depth : Int) := by
      have := Int.mul_le_mul_of_nonneg_right hc1 (le_of_lt hs2)
      simpa using this
    by_cases hge : ((jsSplit payload).length : Int) ≤ 2 + c * (menuStride depth : Int)
    · -- the cut keeps every field
      have hmn : m = (jsSplit payload).length := by omega
      rw [hmn, List.take_of_length_le (le_refl _)]
      apply parseMenuData_congr_split
      exact jsSplit_joinFields _ hne (not_mem_of_mem_jsSplit payload)
    · -- the cut is at `2 + c * stride`, below the length
      have hmlt : m < (jsSplit payload).length := by omega
      have hmB : (m : Int) = 2 + c * (menuStride depth : Int) := by omega
      have hm3 : 3 ≤ m := by omega
      have hsplit := jsSplit_joinFields_take payload m (by omega)
      have hlen : ((jsSplit payload).take m).length = m := by
        rw [List.length_take]; omega
      have h3 : ¬ (jsSplit payload).length < 3 := by omega
      have h3b : ¬ (jsSplit (joinFields ((jsSplit payload).take m))).length < 3 := by
        rw [hsplit, hlen]; omega
      rw [parseMenuData_eq_forLoop _ depth h3b, parseMenuData_eq_forLoop payload depth h3,
        hsplit, hlen, fieldAt_take _ _ _ (by omega), h]
      simp only [JSNum.mul, JSNum.add]
      rw [← hmB]
      -- same bound; compare lengths, fuel and bodies
      rw [forLoop_len_congr (.int (m : Int)) (jsSplit payload).length m (menuStride depth) _
        (fun j hj => by
          simp only [JSNum.lt, decide_eq_true_eq] at hj
          constructor
          · intro _; exact_mod_cast hj
          · intro hjm; omega) (jsSplit payload).length 2]
      rw [forLoop_fuel_irrelevant (.int (m : Int)) m (menuStride depth) _ hs 2
        (jsSplit payload).length m (by omega) (by omega)]
      apply forLoop_congr_visited
      intro k hk1 hk2
      apply menuBody_congr
      intro d hd
      apply trimmedAt_take
      -- a visited index starts a group that ends below the cut
      simp only [JSNum.lt, decide_eq_true_eq] at hk1
      rw [hmB] at hk1
      push_cast at hk1
      have hkc : (k : Int) < c := by
        by_contra hcon
        have : c ≤ (k : Int) := by omega
        have := Int.mul_le_mul_of_nonneg_right this (le_of_lt hs2)
        omega
      have hk1c : ((k : Int) + 1) * (menuStride depth : Int) ≤ c * (menuStride depth : Int) :=
        Int.mul_le_mul_of_nonneg_right (by omega) (le_of_lt hs2)
      have : ((2 + k * menuStride depth + d : Nat) : Int) < (m : Int) := by
        rw [hmB]
        push_cast
        have hd2 : (d : Int) < (menuStride depth : Int) := by exact_mod_cast hd
        nlinarith
      exact_mod_cast this

/-! ## parseMenuData: incomplete groups and truncation -/

/-- C11 (amended). An item is returned exactly for each group of fields that
starts at an index `2 + k * stride` present in the payload, with `k` below the
count and a non-empty trimmed name (stride 4 at depth '3', 2 otherwise).  The
other fields of the group need not be present: a field beyond the end of the
payload is read as `undefined`, a missing date decodes to "invalid date" and
missing access and likes stay `undefined`.  No error is reported. -/
theorem parseMenuData_items_from_groups (payload depth : String) (item : MenuItem) :
    (item ∈ parseMenuData payload depth ↔
      ∃ (k : Nat) (c : Int) (name : String),
        parseInt10 (fieldAt (jsSplit payload) 1) = .int c ∧ (k : Int) < c ∧
        (jsSplit payload).get? (2 + k * menuStride depth) = some name ∧
        (jsTrim name).data ≠ [] ∧
        item = groupItem depth (jsSplit payload) (2 + k * menuStride depth) (jsTrim name)) ∧
    (∀ j : Nat, (jsSplit payload).get? j = none → trimmedAt (jsSplit payload) j = .undefined) ∧
    decodeDate .undefined = "invalid date" :=
  ⟨mem_parseMenuData_iff payload depth item,
   fun j hj => by simp only [trimmedAt, hj],
   rfl⟩

/-- Witness for C11 (amended): the payload "0;1;A" at depth '1'; its only
group has a name and no date. -/
theorem parseMenuData_items_from_groups_witness :
    ({ name := "A", date := "invalid date", access := none, likes := none } : MenuItem)
      ∈ parseMenuData "0;1;A" "1" :=
  (parseMenuData_items_from_groups "0;1;A" "1"
      { name := "A", date := "invalid date", access := none, likes := none }).1.mpr
    ⟨0, 1, "A", by decide, by decide, by decide, by decide, by decide⟩

/-- C11 (counterexample). The payload "0;1;A" has three fields, so its only
group holds a name and no date; at depth '1' the parser still returns an item
for it, dated "invalid date".  At depth '3' the payload "0;1;A;16912" lacks the
access and likes fields of its group and the item is returned with both
`undefined`. -/
theorem parseMenuData_emits_incomplete_group :
    (jsSplit "0;1;A").length = 3 ∧
    parseMenuData "0;1;A" "1"
      = [{ name := "A", date := "invalid date", access := none, likes := none }] ∧
    (jsSplit "0;1;A;16912").length = 4 ∧
    parseMenuData "0;1;A;16912" "3"
      = [{ name := "A", date := "28.12.33", access := some .undefined,
           likes := some .undefined }] := by
  decide

/-- C12. `parseMenuData` truncates and never fails.  With `n` the number of
fields, `s` the stride of the depth (4 at depth '3', else 2) and `c` the
integer parsed from field 1, the result has at most
`max 0 (min c ⌈(n - 2) / s⌉)` items and is taken only from the fields with
index below `min (2 + c * s) n`: the payload cut after that many fields gives
the same items.  A payload with fewer than 3 fields, or whose count is not a
number or is at most 0, gives the empty list. -/
theorem parseMenuData_truncates (payload depth : String) :
    (∀ c : Int, parseInt10 (fieldAt (jsSplit payload) 1) = .int c →
      ((parseMenuData payload depth).length : Int)
          ≤ max 0 (min c ⌈(((jsSplit payload).length : ℚ) - 2) / (menuStride depth : ℚ)⌉) ∧
      parseMenuData (joinFields ((jsSplit payload).take
          (min (2 + c * (menuStride depth : Int)) ((jsSplit payload).length : Int)).toNat)) depth
        = parseMenuData payload depth) ∧
    ((jsSplit payload).length < 3 → parseMenuData payload depth = []) ∧
    (parseInt10 (fieldAt (jsSplit payload) 1) = .nan → parseMenuData payload depth = []) ∧
    (∀ c : Int, c ≤ 0 → parseInt10 (fieldAt (jsSplit payload) 1) = .int c →
      parseMenuData payload depth = []) :=
  ⟨fun c h => ⟨parseMenuData_length_le payload depth c h, parseMenuData_take payload depth c h⟩,
   parseMenuData_of_short payload depth,
   parseMenuData_of_nan payload depth,
   parseMenuData_of_nonpos payload depth⟩

/-- Witness for C12: the payload "0;1;A;16912;B;17000" holds two tuples and a
count of 1, and only the first tuple is returned; the payload "0;5;A;16912"
announces five tuples and holds one, which is returned; "0;x;A;16912", "0;0;A;16912"
and "0;1" give the empty list. -/
theorem parseMenuData_truncates_witness :
    (((parseMenuData "0;1;A;16912;B;17000" "1").length : Int)
        ≤ max 0 (min 1 ⌈(((jsSplit "0;1;A;16912;B;17000").length : ℚ) - 2)
            / (menuStride "1" : ℚ)⌉) ∧
      parseMenuData (joinFields ((jsSplit "0;1;A;16912;B;17000").take
          (min (2 + 1 * (menuStride "1" : Int))
            ((jsSplit "0;1;A;16912;B;17000").length : Int)).toNat)) "1"
        = parseMenuData "0;1;A;16912;B;17000" "1") ∧
    parseMenuData "0;1;A;16912;B;17000" "1"
      = [{ name := "A", date := "28.12.33", access := none, likes := none }] ∧
    parseMenuData "0;5;A;16912" "1"
      = [{ name := "A", date := "28.12.33", access := none, likes := none }] ∧
    parseMenuData "0;x;A;16912" "1" = [] ∧
    parseMenuData "0;0;A;16912" "1" = [] ∧
    parseMenuData "0;1" "1" = [] :=
  ⟨(parseMenuData_truncates "0;1;A;16912;B;17000" "1").1 1 (by decide),
   by decide, by decide,
   (parseMenuData_truncates "0;x;A;16912" "1").2.2.1 (by decide),
   (parseMenuData_truncates "0;0;A;16912" "1").2.2.2 0 (by decide) (by decide),
   (parseMenuData_truncates "0;1" "1").2.1 (by decide)⟩

/-! ## parseGameData: the "no data" result -/

/-- C13. `parseGameData` returns `null` if and only if the payload splits on
';' into fewer than 9 fields; with 9 or more fields it returns a record.  The
payload "1;2;3;4;5;6;7;8" has 8 fields and gives `null`; "1;2;3;4;5;6;7;8;9"
has 9 and gives a record. -/
theorem parseGameData_null_iff (payload : String) :
    (parseGameData payload = none ↔ (jsSplit payload).length < 9) ∧
    ((parseGameData payload).isSome = true ↔ 9 ≤ (jsSplit payload).length) ∧
    parseGameData "1;2;3;4;5;6;7;8" = none ∧
    (parseGameData "1;2;3;4;5;6;7;8;9").isSome = true := by
  have hsome : 9 ≤ (jsSplit payload).length → (parseGameData payload).isSome = true := by
    intro h
    obtain ⟨p0, p1, p2, p3, p4, p5, p6, p7, p8, rest, hp⟩ := list_of_nine_le_length _ h
    have hlt : ¬ (jsSplit payload).length < 9 := by omega
    unfold parseGameData
    simp only [hlt, if_false]
    rw [hp]
    rfl
  have hnone : (jsSplit payload).length < 9 → parseGameData payload = none := by
    intro h
    simp [parseGameData, h]
  refine ⟨⟨?_, hnone⟩, ⟨?_, hsome⟩, by decide, by decide⟩
  · intro h
    by_contra hcon
    have := hsome (by omega)
    rw [h] at this
    simp at this
  · intro h
    by_contra hcon
    have := hnone (by omega)
    rw [this] at h
    simp at h

/-! ## Cache store -/

/-- C14. `shouldInvalidateCache(key)` is true if and only if the store has no
entry under the key or the entry's age `now - timestamp` is strictly greater
than 86,400,000 ms.  It is false for an entry just written by `cacheData` at
the current time, still false at an age of exactly 24h, and true one
millisecond later. -/
theorem shouldInvalidateCache_iff (store : Store) (now : Int) (key : String) :
    (shouldInvalidateCache store now key = true ↔
      store (storageKey key) = none ∨
      ∃ entry, store (storageKey key) = some entry ∧ now - entry.timestamp > 86400000) ∧
    (∀ data : String, shouldInvalidateCache (cacheData store now key data) now key = false) ∧
    (∀ data : String,
      shouldInvalidateCache (cacheData store now key data) (now + 86400000) key = false) ∧
    (∀ data : String,
      shouldInvalidateCache (cacheData store now key data) (now + 86400001) key = true) := by
  refine ⟨?_, ?_, ?_, ?_⟩
  · unfold shouldInvalidateCache
    cases h : store (storageKey key) with
    | none => simp
    | some entry => simp [CACHE_EXPIRY_MS]
  · intro data
    simp [shouldInvalidateCache, cacheData, CACHE_EXPIRY_MS]
  · intro data
    simp [shouldInvalidateCache, cacheData, CACHE_EXPIRY_MS]
  · intro data
    simp [shouldInvalidateCache, cacheData, CACHE_EXPIRY_MS]

/-- C15. Success path: when the request is not served from the cache (no entry
under its fingerprint, or an entry that is stale or holds the empty string) and
the endpoint answers with body `b`, `fetchMenuData` returns `b` after one
network request; the resulting store holds `{ data: b, timestamp }` under the
fingerprint, with the clock reading taken by `cacheData`, in place of any
previous entry; every other key is unchanged; `getCachedData` on the
fingerprint then returns `b`. -/
theorem fetchMenuData_success (params : Params) (store : Store) (env : Env) (b : String)
    (hok : env.net params = .ok b)
    (hmiss : store (storageKey (cacheKeyOf params)) = none ∨
      ∃ entry, store (storageKey (cacheKeyOf params)) = some entry ∧
        (entry.data = "" ∨ env.now - entry.timestamp > 24 * 60 * 60 * 1000)) :
    (fetchMenuData params store env).data = b ∧
    (fetchMenuData params store env).requests = [params] ∧
    (fetchMenuData params store env).store (storageKey (cacheKeyOf params))
      = some { data := b, timestamp := env.nowAtStore } ∧
    (∀ k : String, k ≠ storageKey (cacheKeyOf params) →
      (fetchMenuData params store env).store k = store k) ∧
    getCachedData (fetchMenuData params store env).store (cacheKeyOf params) = some b := by
  have hlive : fetchMenuData params store env =
      { data := b, store := cacheData store env.nowAtStore (cacheKeyOf params) b,
        requests := [params] } := by
    rcases hmiss with hnone | ⟨entry, hentry, hempty | hstale⟩
    · simp only [fetchMenuData, getCachedData, hnone, hok]
    · have hd : entry.data.data = [] := by rw [hempty]
      simp only [fetchMenuData, getCachedData, hentry, hok, ne_eq, hd, not_true_eq_false,
        false_and, if_false]
    · have hinv : shouldInvalidateCache store env.now (cacheKeyOf params) = true := by
        simp only [shouldInvalidateCache, hentry, CACHE_EXPIRY_MS, decide_eq_true_eq]
        exact hstale
      simp only [fetchMenuData, getCachedData, hentry, hok, hinv, Bool.true_eq_false, and_false,
        if_false]
  rw [hlive]
  refine ⟨rfl, rfl, ?_, ?_, ?_⟩
  · simp [cacheData]
  · intro k hk
    simp [cacheData, hk]
  · simp [getCachedData, cacheData]

/-- Witness for C15: an empty store and an endpoint answering "0;1;Tools;16912";
the key of another request is left as it was. -/
theorem fetchMenuData_success_witness :
    (fetchMenuData rootParams emptyStore onlineEnv).data = "0;1;Tools;16912" ∧
    (fetchMenuData rootParams emptyStore onlineEnv).store (storageKey (cacheKeyOf rootParams))
      = some { data := "0;1;Tools;16912", timestamp := onlineEnv.nowAtStore } ∧
    (fetchMenuData rootParams emptyStore onlineEnv).store "menuCache_2_Games"
      = emptyStore "menuCache_2_Games" :=
  ⟨(fetchMenuData_success rootParams emptyStore onlineEnv "0;1;Tools;16912" rfl
      (Or.inl rfl)).1,
   (fetchMenuData_success rootParams emptyStore onlineEnv "0;1;Tools;16912" rfl
      (Or.inl rfl)).2.2.1,
   (fetchMenuData_success rootParams emptyStore onlineEnv "0;1;Tools;16912" rfl
      (Or.inl rfl)).2.2.2.1 "menuCache_2_Games" (by decide)⟩

/-! ## Navigation: going back on a short history -/

/-- C16. `goBack` on a history with at most one frame is a no-op: the state is
returned as it is, so the history is unchanged, no request is made and the
screen is the one that was there. -/
theorem goBack_noop (st : AppState) (env : Env) (h : st.menuHistory.length ≤ 1) :
    goBack st env = st ∧
    (goBack st env).menuHistory = st.menuHistory ∧
    (goBack st env).requests = st.requests ∧
    (goBack st env).display = st.display ∧
    (goBack st env).store = st.store := by
  have hlt : st.menuHistory.length < 2 := by omega
  have : goBack st env = st := by
    unfold goBack
    rw [if_pos hlt]
  rw [this]
  exact ⟨rfl, rfl, rfl, rfl, rfl⟩

/-- Witness for C16: going back from the single depth-1 frame. -/
theorem goBack_noop_witness :
    goBack oneFrameState onlineEnv = oneFrameState ∧
    (goBack oneFrameState onlineEnv).menuHistory = oneFrameState.menuHistory ∧
    (goBack oneFrameState onlineEnv).requests = oneFrameState.requests ∧
    (goBack oneFrameState onlineEnv).display = oneFrameState.display ∧
    (goBack oneFrameState onlineEnv).store = oneFrameState.store :=
  goBack_noop oneFrameState onlineEnv (by decide)

/-! ## Navigation invariant -/

theorem historyOk_singleton : HistoryOk [{ cmd := "1", dat := some "0" }] := by
  refine ⟨by decide, rfl, ?_⟩
  intro i p h
  cases i with
  | zero =>
    simp only [List.get?] at h
    cases h
    rfl
  | succ i => simp [List.get?] at h

theorem historyOk_ne_nil {h : List Params} (hok : HistoryOk h) : h ≠ [] := by
  intro e
  have := hok.2.1
  rw [e] at this
  simp at this

theorem historyOk_push {h : List Params} (hok : HistoryOk h) (p : Params)
    (hlen : h.length ≤ 3) (hp : p.cmd = toString (h.length + 1)) : HistoryOk (h ++ [p]) := by
  obtain ⟨h1, h2, h3⟩ := hok
  refine ⟨by simp; omega, ?_, ?_⟩
  · rw [List.head?_append_of_ne_nil _ (historyOk_ne_nil ⟨h1, h2, h3⟩)]
    exact h2
  · intro i q hq
    rw [List.get?_eq_getElem?] at hq
    by_cases hi : i < h.length
    · rw [List.getElem?_append_left hi] at hq
      exact h3 i q (by rw [List.get?_eq_getElem?]; exact hq)
    · have hi2 : h.length ≤ i := not_lt.mp hi
      rw [List.getElem?_append_right hi2] at hq
      have hi0 : i - h.length = 0 := by
        by_contra hne
        have : 1 ≤ i - h.length := by omega
        rw [List.getElem?_eq_none (by simpa using this)] at hq
        exact absurd hq (by simp)
      rw [hi0] at hq
      simp only [List.getElem?_cons_zero, Option.some.injEq] at hq
      have : i = h.length := by omega
      rw [← hq, this]
      exact hp

theorem historyOk_dropLast {h : List Params} (hok : HistoryOk h) (hlen : 2 ≤ h.length) :
    HistoryOk h.dropLast := by
  obtain ⟨h1, h2, h3⟩ := hok
  refine ⟨by rw [List.length_dropLast]; omega, ?_, ?_⟩
  · rw [List.dropLast_eq_take, List.head?_take, if_neg (by omega)]
    exact h2
  · intro i q hq
    rw [List.dropLast_eq_take, List.get?_eq_getElem?, List.getElem?_take] at hq
    by_cases hi : i < h.length - 1
    · rw [if_pos hi] at hq
      exact h3 i q (by rw [List.get?_eq_getElem?]; exact hq)
    · rw [if_neg hi] at hq
      exact absurd hq (by simp)

/-- In a well-formed history the top frame is at depth `String(length)`. -/
theorem historyOk_top_cmd {h : List Params} (hok : HistoryOk h) (top : Params)
    (htop : h.getLast? = some top) : top.cmd = toString h.length := by
  have hne := historyOk_ne_nil hok
  have hlen : 1 ≤ h.length := by
    cases h with
    | nil => exact absurd rfl hne
    | cons a l => simp
  rw [List.getLast?_eq_getElem?] at htop
  have := hok.2.2 (h.length - 1) top (by rw [List.get?_eq_getElem?]; exact htop)
  rw [this, show h.length - 1 + 1 = h.length by omega]

/-- Below depth 4 the level computed by the row handler is the next depth. -/
theorem historyOk_next_level {h : List Params} (hok : HistoryOk h) (top : Params)
    (htop : h.getLast? = some top) (h4 : top.cmd ≠ "4") :
    h.length ≤ 3 ∧
    ((parseInt10 (.str top.cmd)).add (.int 1)).toStr = toString (h.length + 1) := by
  have hcmd := historyOk_top_cmd hok top htop
  have hne := historyOk_ne_nil hok
  have hlen1 : 1 ≤ h.length := by
    cases h with
    | nil => exact absurd rfl hne
    | cons a l => simp
  have hlen4 := hok.1
  rw [hcmd] at h4 ⊢
  generalize h.length = n at hlen1 hlen4 h4 ⊢
  interval_cases n
  · exact ⟨by decide, by decide⟩
  · exact ⟨by decide, by decide⟩
  · exact ⟨by decide, by decide⟩
  · exact absurd (by decide) h4

theorem renderScreen_eq_menu {top cur : Params} {data : String} {items : List MenuItem}
    (h : renderScreen top data = .menu items cur) : top.cmd ≠ "4" ∧ cur = top := by
  unfold renderScreen at h
  by_cases h4 : top.cmd = "4"
  · rw [if_pos h4] at h
    cases h
  · rw [if_neg h4] at h
    injection h with _ h2
    exact ⟨h4, h2.symm⟩

theorem loadAndShowMenu_forward (p : Params) (st : AppState) (env : Env) :
    (loadAndShowMenu p false st env).menuHistory = st.menuHistory ++ [p] ∧
    (loadAndShowMenu p false st env).display
      = renderScreen p (fetchMenuData p st.store env).data :=
  ⟨rfl, rfl⟩

theorem navInv_forward (st : AppState) (p : Params) (env : Env)
    (hok : HistoryOk (st.menuHistory ++ [p])) : NavInv (loadAndShowMenu p false st env) :=
  ⟨hok, p, (fetchMenuData p st.store env).data, by
    rw [(loadAndShowMenu_forward p st env).1, List.getLast?_concat], rfl⟩

theorem navInv_init (store : Store) (backVisible : Bool) (env : Env) :
    NavInv (init store backVisible env) :=
  navInv_forward (startState store backVisible) _ env historyOk_singleton

theorem navInv_refresh (st : AppState) (env : Env) : NavInv (refresh st env) :=
  navInv_forward { st with menuHistory := [] } _ env historyOk_singleton

/-- What a row click does in a state satisfying the invariant: the menu on
screen belongs to the top frame, whose depth `d` is the length of the history
and less than 4, and the click enters `{ cmd: String(d + 1), dat: item.name }`. -/
theorem rowClick_of_navInv {st : AppState} (hinv : NavInv st) (items : List MenuItem)
    (cur : Params) (item : MenuItem) (env : Env) (hdisp : st.display = .menu items cur) :
    st.menuHistory.getLast? = some cur ∧
    cur.cmd = toString st.menuHistory.length ∧
    st.menuHistory.length ≤ 3 ∧
    rowClick cur item st env
      = loadAndShowMenu { cmd := toString (st.menuHistory.length + 1), dat := some item.name }
          false st env := by
  obtain ⟨hok, top, data, htop, hd⟩ := hinv
  rw [hdisp] at hd
  obtain ⟨h4, hcur⟩ := renderScreen_eq_menu hd.symm
  subst hcur
  obtain ⟨hlen, hnext⟩ := historyOk_next_level hok cur htop h4
  refine ⟨htop, historyOk_top_cmd hok cur htop, hlen, ?_⟩
  unfold rowClick
  simp only [hnext]

theorem navInv_goBack {st : AppState} (hinv : NavInv st) (env : Env) :
    NavInv (goBack st env) := by
  unfold goBack
  by_cases hlt : st.menuHistory.length < 2
  · rw [if_pos hlt]; exact hinv
  · rw [if_neg hlt]
    have hok := historyOk_dropLast hinv.1 (by omega)
    obtain ⟨prev, hprev⟩ : ∃ prev, st.menuHistory.dropLast.getLast? = some prev := by
      cases hg : st.menuHistory.dropLast.getLast? with
      | none => exact absurd (List.getLast?_eq_none_iff.mp hg) (historyOk_ne_nil hok)
      | some prev => exact ⟨prev, rfl⟩
    simp only [hprev]
    exact ⟨hok, prev, _, hprev, rfl⟩

theorem navInv_step {st : AppState} (hinv : NavInv st) (a : Action) (env : Env) :
    NavInv (step st a env) := by
  cases a with
  | back => exact navInv_goBack hinv env
  | refresh => exact navInv_refresh st env
  | selectRow k =>
    unfold step
    simp only
    cases hd : st.display with
    | blank => simpa using hinv
    | details g => simpa using hinv
    | menu items cur =>
      simp only
      cases hk : items.get? k with
      | none => simpa using hinv
      | some item =>
        simp only
        obtain ⟨_, _, hlen, hrow⟩ := rowClick_of_navInv hinv items cur item env hd
        rw [hrow]
        exact navInv_forward st _ env (historyOk_push hinv.1 _ hlen rfl)

theorem navInv_runActions (acts : List (Action × Env)) :
    ∀ st : AppState, NavInv st → NavInv (runActions st acts) := by
  induction acts with
  | nil => intro st h; exact h
  | cons a rest ih =>
    intro st h
    obtain ⟨act, env⟩ := a
    exact ih _ (navInv_step h act env)

/-- C17. Navigation-history invariant.  In every state reachable from `init`
by row selections, back and refresh actions run one after the other: the
history is non-empty, its bottom frame is `{ cmd: '1', dat: '0' }`, the frame
at position `i` (from 0) has depth `String(i + 1)`, there are at most 4 frames,
and the screen is the render of a payload for the top frame.  A row selection
on the menu on screen, which belongs to the top frame of depth `d` (the length
of the history, at most 3), enters `{ cmd: String(d + 1), dat: item.name }` and
pushes it; at depth 4 no row selection changes anything; after `goBack` the
bottom frame is still the depth-1 frame. -/
theorem navigation_invariant (st : AppState) (hreach : Reachable st) :
    st.menuHistory ≠ [] ∧
    st.menuHistory.head? = some { cmd := "1", dat := some "0" } ∧
    (∀ (i : Nat) (p : Params), st.menuHistory.get? i = some p → p.cmd = toString (i + 1)) ∧
    st.menuHistory.length ≤ 4 ∧
    (∃ (top : Params) (data : String),
      st.menuHistory.getLast? = some top ∧ st.display = renderScreen top data) ∧
    (∀ (items : List MenuItem) (cur : Params) (k : Nat) (item : MenuItem) (env : Env),
      st.display = .menu items cur → items.get? k = some item →
        st.menuHistory.getLast? = some cur ∧
        cur.cmd = toString st.menuHistory.length ∧
        st.menuHistory.length ≤ 3 ∧
        step st (.selectRow k) env
          = loadAndShowMenu
              { cmd := toString (st.menuHistory.length + 1), dat := some item.name }
              false st env ∧
        (step st (.selectRow k) env).menuHistory
          = st.menuHistory ++
              [{ cmd := toString (st.menuHistory.length + 1), dat := some item.name }]) ∧
    (∀ (top : Params), st.menuHistory.getLast? = some top → top.cmd = "4" →
      ∀ (k : Nat) (env : Env), step st (.selectRow k) env = st) ∧
    (∀ (env : Env),
      (goBack st env).menuHistory.head? = some { cmd := "1", dat := some "0" }) := by
  obtain ⟨store, bv, env0, acts, rfl⟩ := hreach
  have hinv := navInv_runActions acts _ (navInv_init store bv env0)
  generalize runActions (init store bv env0) acts = st at hinv
  refine ⟨historyOk_ne_nil hinv.1, hinv.1.2.1, hinv.1.2.2, hinv.1.1, hinv.2, ?_, ?_, ?_⟩
  · intro items cur k item env hd hk
    obtain ⟨h1, h2, h3, h4⟩ := rowClick_of_navInv hinv items cur item env hd
    have hstep : step st (.selectRow k) env = rowClick cur item st env := by
      unfold step
      simp only [hd, hk]
    refine ⟨h1, h2, h3, by rw [hstep, h4], by rw [hstep, h4]; rfl⟩
  · intro top htop h4 k env
    obtain ⟨_, top2, data, htop2, hd⟩ := hinv
    rw [htop] at htop2
    cases htop2
    unfold step
    simp only [hd, renderScreen, h4, if_true]
  · intro env
    exact (navInv_goBack hinv env).1.2.1

/-- Witness for C17: from a cached root menu, select its row, then go back. -/
theorem navigation_invariant_witness :
    (runActions (init menuStore false offlineEnv)
        [(.selectRow 0, onlineEnv), (.back, offlineEnv)]).menuHistory.length ≤ 4 ∧
    (runActions (init menuStore false offlineEnv) [(.selectRow 0, onlineEnv)]).menuHistory
      = [{ cmd := "1", dat := some "0" }, { cmd := "2", dat := some "Games" }] ∧
    (runActions (init menuStore false offlineEnv)
        [(.selectRow 0, onlineEnv), (.back, offlineEnv)]).menuHistory
      = [{ cmd := "1", dat := some "0" }] :=
  ⟨(navigation_invariant _ ⟨menuStore, false, offlineEnv,
      [(.selectRow 0, onlineEnv), (.back, offlineEnv)], rfl⟩).2.2.2.1,
   by decide, by decide⟩

/-! ## Refresh -/

theorem fetchMenuData_store_cases (params : Params) (store : Store) (env : Env) :
    (fetchMenuData params store env).store = store ∨
    ∃ b, (fetchMenuData params store env).store
      = cacheData store env.nowAtStore (cacheKeyOf params) b := by
  cases hnet : env.net params <;> cases hc : getCachedData store (cacheKeyOf params) <;>
    simp only [fetchMenuData, hnet, hc] <;> (try split_ifs) <;> simp

/-- C18 (amended). Refresh clears navigation state only: it ends with the
history equal to the single frame `{ cmd: '1', dat: '0' }`, every key that had
an entry still has one, and every key other than that of "1_0" keeps its
entry; when the store holds under "1_0" a fresh entry whose data is not the
empty string, refresh displays that cached data, makes no network request and
leaves the store as it is. -/
theorem refresh_keeps_cache (st : AppState) (env : Env) :
    (refresh st env).menuHistory = [{ cmd := "1", dat := some "0" }] ∧
    (∀ (k : String) (entry : CacheEntry), st.store k = some entry →
      ∃ entry2, (refresh st env).store k = some entry2) ∧
    (∀ (k : String), k ≠ storageKey "1_0" → (refresh st env).store k = st.store k) ∧
    (∀ (entry : CacheEntry), st.store (storageKey "1_0") = some entry →
      entry.data ≠ "" → env.now - entry.timestamp ≤ 24 * 60 * 60 * 1000 →
      (refresh st env).display = renderScreen { cmd := "1", dat := some "0" } entry.data ∧
      (refresh st env).requests = st.requests ∧
      (refresh st env).store = st.store) := by
  have hkey : cacheKeyOf { cmd := "1", dat := some "0" } = "1_0" := by decide
  have hstore : (refresh st env).store
      = (fetchMenuData { cmd := "1", dat := some "0" } st.store env).store := rfl
  refine ⟨rfl, ?_, ?_, ?_⟩
  · intro k entry hk
    rw [hstore]
    rcases fetchMenuData_store_cases { cmd := "1", dat := some "0" } st.store env with h | ⟨b, h⟩
    · rw [h]; exact ⟨entry, hk⟩
    · rw [h]
      by_cases hkk : k = storageKey (cacheKeyOf { cmd := "1", dat := some "0" })
      · exact ⟨{ data := b, timestamp := env.nowAtStore }, by
          simp only [cacheData, hkk, if_true]⟩
      · exact ⟨entry, by simp only [cacheData, hkk, if_false, hk]⟩
  · intro k hk
    rw [hstore]
    rcases fetchMenuData_store_cases { cmd := "1", dat := some "0" } st.store env with h | ⟨b, h⟩
    · rw [h]
    · rw [h, hkey]
      simp only [cacheData, hk, if_false]
  · intro entry hentry hdata hfresh
    have hd := string_data_ne_nil hdata
    have hinv : shouldInvalidateCache st.store env.now "1_0" = false := by
      simp only [shouldInvalidateCache, hentry, CACHE_EXPIRY_MS]
      simp only [decide_eq_false_iff_not, not_lt, gt_iff_lt]
      exact hfresh
    have hfetch : fetchMenuData { cmd := "1", dat := some "0" } st.store env
        = { data := entry.data, store := st.store, requests := [] } := by
      simp only [fetchMenuData, hkey, getCachedData, hentry, hinv, and_self, if_true, ne_eq, hd,
        not_false_eq_true]
    refine ⟨?_, ?_, ?_⟩
    · have hdisp : (refresh st env).display = renderScreen { cmd := "1", dat := some "0" }
          (fetchMenuData { cmd := "1", dat := some "0" } st.store env).data := rfl
      rw [hdisp, hfetch]
    · have hreq : (refresh st env).requests = st.requests
          ++ (fetchMenuData { cmd := "1", dat := some "0" } st.store env).requests := rfl
      rw [hreq, hfetch]; simp
    · rw [hstore, hfetch]

/-- Witness for C18 (amended): refreshing from a two-frame history over a store
with a fresh one-item root menu, with the endpoint answering. -/
theorem refresh_keeps_cache_witness :
    (refresh { twoFrameState with store := menuStore } onlineEnv).menuHistory
      = [{ cmd := "1", dat := some "0" }] ∧
    ((refresh { twoFrameState with store := menuStore } onlineEnv).display
        = renderScreen { cmd := "1", dat := some "0" } "0;1;Games;16912" ∧
      (refresh { twoFrameState with store := menuStore } onlineEnv).requests = [] ∧
      (refresh { twoFrameState with store := menuStore } onlineEnv).store = menuStore) :=
  ⟨(refresh_keeps_cache { twoFrameState with store := menuStore } onlineEnv).1,
   (refresh_keeps_cache { twoFrameState with store := menuStore } onlineEnv).2.2.2
     { data := "0;1;Games;16912", timestamp := 1000 } (by decide) (by decide) (by decide)⟩

/-- C18 (counterexample). The store holds under "1_0" a fresh entry whose data
is the empty string; refresh sends a network request for the depth-1 frame and
shows the menu of the response, not the (empty) menu of the cached data. -/
theorem refresh_empty_entry_goes_live :
    emptyPayloadStore (storageKey "1_0") = some { data := "", timestamp := 1000 } ∧
    onlineEnv.now - 1000 ≤ CACHE_EXPIRY_MS ∧
    (refresh { twoFrameState with store := emptyPayloadStore } onlineEnv).requests
      = [{ cmd := "1", dat := some "0" }] ∧
    (refresh { twoFrameState with store := emptyPayloadStore } onlineEnv).display
      = .menu [{ name := "Tools", date := "28.12.33", access := none, likes := none }]
          { cmd := "1", dat := some "0" } ∧
    renderScreen { cmd := "1", dat := some "0" } ""
      = .menu [] { cmd := "1", dat := some "0" } := by
  decide

/-! ## The image of the decoder -/

/-- C20. What the hardcoded fallback payloads parse to: at every depth
`parseMenuData("0;0;", depth)` is the empty list, whereas
`parseGameData("1;2;3;4;5;6;7;8;9")` is the record with filename "2", author
"3", license "4", description "5", downloadPath
"https://drive.google.com/file/d/6", accessLevel "7", likes "8" and downloads
"9".  Hence a request at depth '4' that fails with nothing cached renders that
record, not the "no data" state, while at any other depth it renders the
empty menu. -/
theorem fallback_payloads (depth : String) :
    parseMenuData "0;0;" depth = [] ∧
    parseGameData "1;2;3;4;5;6;7;8;9"
      = some { filename := "2", author := "3", license := "4", description := "5",
               downloadPath := "https://drive.google.com/file/d/6",
               accessLevel := "7", likes := "8", downloads := "9" } ∧
    (∀ (params : Params) (isBack : Bool) (st : AppState) (env : Env),
      env.net params = .failed → st.store (storageKey (cacheKeyOf params)) = none →
      (params.cmd = "4" →
        (loadAndShowMenu params isBack st env).display
          = .details (some { filename := "2", author := "3", license := "4",
                             description := "5",
                             downloadPath := "https://drive.google.com/file/d/6",
                             accessLevel := "7", likes := "8", downloads := "9" })) ∧
      (params.cmd ≠ "4" →
        (loadAndShowMenu params isBack st env).display = .menu [] params)) := by
  have hmenu : ∀ d : String, parseMenuData "0;0;" d = [] := by
    intro d
    exact parseMenuData_of_nonpos "0;0;" d 0 (le_refl 0) (by decide)
  have hgame : parseGameData "1;2;3;4;5;6;7;8;9"
      = some { filename := "2", author := "3", license := "4", description := "5",
               downloadPath := "https://drive.google.com/file/d/6",
               accessLevel := "7", likes := "8", downloads := "9" } := by decide
  refine ⟨hmenu depth, hgame, ?_⟩
  intro params isBack st env hfail hnone
  have hdata : (fetchMenuData params st.store env).data
      = (if params.cmd = "4" then "1;2;3;4;5;6;7;8;9" else "0;0;") := by
    simp only [fetchMenuData, getCachedData, hnone, hfail, defaultPayload]
  have hdisp : (loadAndShowMenu params isBack st env).display
      = renderScreen params (fetchMenuData params st.store env).data := rfl
  constructor
  · intro h4
    rw [hdisp, hdata, if_pos h4]
    unfold renderScreen
    rw [if_pos h4, hgame]
  · intro h4
    rw [hdisp, hdata, if_neg h4]
    unfold renderScreen
    rw [if_neg h4, hmenu]

/-- Witness for C20: a failing detail request and a failing depth-1 request on
an empty store. -/
theorem fallback_payloads_witness :
    (loadAndShowMenu detailParams false oneFrameState offlineEnv).display
      = .details (some { filename := "2", author := "3", license := "4", description := "5",
                         downloadPath := "https://drive.google.com/file/d/6",
                         accessLevel := "7", likes := "8", downloads := "9" }) ∧
    (loadAndShowMenu rootParams false oneFrameState offlineEnv).display
      = .menu [] rootParams :=
  ⟨((fallback_payloads "4").2.2 detailParams false oneFrameState offlineEnv rfl rfl).1
      (by decide),
   ((fallback_payloads "1").2.2 rootParams false oneFrameState offlineEnv rfl rfl).2
      (by decide)⟩

end AppStore
